import Mathlib

/-!
# A verification development for the `fsm` package (`fsm.go`)

The Go package keeps a current state, a table of legal transitions and two
registries of callbacks.  The embedding below follows `fsm.go` function by
function.

Modelling conventions
* A Go `error` is identified by its message; the `nil` error is `none`.
* A Go `map[string]V` is a function `String → Option V`; `none` is a missing key.
* A Go function value is a reference to a closure.  The registries of the machine
  hold such references; their type is the parameter `F`.  What a closure does when
  it is called is given by a table `cl : Closures F W`.  A closure captures
  variables of the program that uses the package, among them, possibly, the
  machine itself: so a call of it starts from the machine and the outside state
  `W` as they are at that moment and leaves a machine, an outside state, the list
  of callbacks that were called while it ran, and its error (`Outcome`).  A
  closure can so do to the machine all that calls of `Start`, `Transition`,
  `AddTransition`, `OnEnter` and `OnExit` made from inside it would do.
* A closure is taken to return: a panic, an endless recursion and the `nil`
  function value are not modelled.
* `Outcome.calls` lists every callback called during an operation, in order: a
  callback the operation calls itself is followed by the calls that happened
  while that callback ran.
-/

namespace fsm

/-! ## Data model -/

/-- A Go `error` value, identified by the text `Error()` returns. -/
structure Error where
  text : String
deriving DecidableEq, Repr

/-- Go `errors.New`. -/
def errors.New (text : String) : Error := ⟨text⟩

/-- A Go `map[string]V`. -/
abbrev GoMap (V : Type) := String → Option V

/-- The map created by `make(map[string]V, 0)`. -/
def GoMap.empty {V : Type} : GoMap V := fun _ => none

/-- The assignment `m[key] = value`. -/
def GoMap.set {V : Type} (m : GoMap V) (key : String) (value : V) : GoMap V :=
  fun k => if k = key then some value else m k

/-- Go `type FSM struct`; `F` is the type of the function values it holds. -/
structure FSM (F : Type) where
  /-- the current state that the FSM is in -/
  currentState : String
  /-- maps a single state to N valid transition states -/
  transitionMap : GoMap (List String)
  /-- the function that will be called when a state is entered -/
  enterFuncs : GoMap F
  /-- the function that will be called when a state is exited -/
  exitFuncs : GoMap F

/-- One call of a registered callback: which registry it came from and for which state. -/
inductive Call where
  | enter (state : String)
  | exit (state : String)
deriving DecidableEq, Repr

/-- What a call of `Start`, of `Transition` or of a callback leaves behind: the
machine, the outside state, the callbacks that were called while it ran (in
order) and the returned error. -/
structure Outcome (F W : Type) where
  machine : FSM F
  env : W
  calls : List Call
  err : Option Error

/-- Go `type transitionFunc func() error`: what a call of such a function does,
given the machine and the outside state at the moment of the call. -/
abbrev transitionFunc (F W : Type) := FSM F → W → Outcome F W

/-- What each function value does when it is called. -/
abbrev Closures (F W : Type) := F → transitionFunc F W

/-! ## Operations -/

/-- Go `NewFSM`. -/
def NewFSM {F : Type} : FSM F :=
  { currentState := ""
    transitionMap := GoMap.empty
    enterFuncs := GoMap.empty
    exitFuncs := GoMap.empty }

/-- The linear search both loops of `fsm.go` perform:
`for _, transition := range transitions { if transition == state { ... } }`.
It answers whether the loop body's test succeeded for some element. -/
def searchLoop : List String → String → Bool
  | [], _ => false
  | transition :: rest, state =>
    if transition = state then true else searchLoop rest state

/-- Go `(*FSM).AddTransition`. -/
def AddTransition {F : Type} (f : FSM F) (stateA stateB : String) : FSM F :=
  -- _, ok := f.transitionMap[stateA]; if !ok { f.transitionMap[stateA] = make([]string, 0) }
  let f1 : FSM F :=
    match f.transitionMap stateA with
    | some _ => f
    | none => { f with transitionMap := f.transitionMap.set stateA [] }
  -- reading a missing key yields the nil slice
  let transitions := (f1.transitionMap stateA).getD []
  -- do nothing if transition already exists
  if searchLoop transitions stateB then f1
  else { f1 with transitionMap := f1.transitionMap.set stateA (transitions ++ [stateB]) }

/-- Go `(*FSM).OnEnter`; the returned error is always `nil`. -/
def OnEnter {F : Type} (f : FSM F) (state : String) (fn : F) : FSM F × Option Error :=
  ({ f with enterFuncs := f.enterFuncs.set state fn }, none)

/-- Go `(*FSM).OnExit`; the returned error is always `nil`. -/
def OnExit {F : Type} (f : FSM F) (state : String) (fn : F) : FSM F × Option Error :=
  ({ f with exitFuncs := f.exitFuncs.set state fn }, none)

/-- Go `(*FSM).Start`.  The callback is looked up in the machine as it is at the
call; `f.currentState = startState` is written into the machine as the callback
left it. -/
def Start {F W : Type} (cl : Closures F W) (f : FSM F) (startState : String) (w : W) :
    Outcome F W :=
  match f.enterFuncs startState with
  | some fn =>
    let r := cl fn f w
    match r.err with
    | some err => ⟨r.machine, r.env, Call.enter startState :: r.calls, some err⟩
    | none =>
      ⟨{ r.machine with currentState := startState }, r.env,
        Call.enter startState :: r.calls, none⟩
  | none => ⟨{ f with currentState := startState }, w, [], none⟩

/-- Go `(*FSM).Transition`.  `x` is where the call stands after the block
`// call exit funcs`, `n` where it stands after the block `// call enter funcs`:
the enter callback is looked up in the machine as the exit callback left it, and
`f.currentState = nextState` is written into the machine as the enter callback
left it. -/
def Transition {F W : Type} (cl : Closures F W) (f : FSM F) (nextState : String) (w : W) :
    Outcome F W :=
  match f.transitionMap f.currentState with
  | none =>
    ⟨f, w, [], some (errors.New ("Could not transition to " ++ nextState ++ ". State does not exist"))⟩
  | some transitions =>
    if searchLoop transitions nextState = false then
      ⟨f, w, [], some (errors.New ("Invalid transition from " ++ f.currentState ++ " to " ++ nextState))⟩
    else
      -- call exit funcs
      let x : Outcome F W :=
        match f.exitFuncs f.currentState with
        | some exitFun =>
          let r := cl exitFun f w
          ⟨r.machine, r.env, Call.exit f.currentState :: r.calls, r.err⟩
        | none => ⟨f, w, [], none⟩
      match x.err with
      | some err => ⟨x.machine, x.env, x.calls, some err⟩
      | none =>
        -- call enter funcs
        let n : Outcome F W :=
          match x.machine.enterFuncs nextState with
          | some enterFun =>
            let r := cl enterFun x.machine x.env
            ⟨r.machine, r.env, x.calls ++ Call.enter nextState :: r.calls, r.err⟩
          | none => ⟨x.machine, x.env, x.calls, none⟩
        match n.err with
        | some err => ⟨n.machine, n.env, n.calls, some err⟩
        | none => ⟨{ n.machine with currentState := nextState }, n.env, n.calls, none⟩

/-! ## Auxiliary notions used to state the properties -/

/-- Where a `Transition` call stands once the exit callback registered for the
current state (if there is one) has run: the machine and the outside state it
left, the calls so far, and its error. -/
def afterExit {F W : Type} (cl : Closures F W) (f : FSM F) (w : W) : Outcome F W :=
  match f.exitFuncs f.currentState with
  | some exitFun =>
    ⟨(cl exitFun f w).machine, (cl exitFun f w).env,
      Call.exit f.currentState :: (cl exitFun f w).calls, (cl exitFun f w).err⟩
  | none => ⟨f, w, [], none⟩

/-- Where a `Transition state` call stands once, after the exit callback, the enter
callback then found registered for `state` (if there is one) has run. -/
def afterEnter {F W : Type} (cl : Closures F W) (f : FSM F) (state : String) (w : W) :
    Outcome F W :=
  match (afterExit cl f w).machine.enterFuncs state with
  | some enterFun =>
    ⟨(cl enterFun (afterExit cl f w).machine (afterExit cl f w).env).machine,
      (cl enterFun (afterExit cl f w).machine (afterExit cl f w).env).env,
      (afterExit cl f w).calls
        ++ Call.enter state :: (cl enterFun (afterExit cl f w).machine (afterExit cl f w).env).calls,
      (cl enterFun (afterExit cl f w).machine (afterExit cl f w).env).err⟩
  | none => ⟨(afterExit cl f w).machine, (afterExit cl f w).env, (afterExit cl f w).calls, none⟩

/-- The call of the exit callback of `state`: one call when one is registered, none otherwise. -/
def exitCalls {F : Type} (f : FSM F) (state : String) : List Call :=
  match f.exitFuncs state with
  | some _ => [Call.exit state]
  | none => []

/-- The call of the enter callback of `state`: one call when one is registered, none otherwise. -/
def enterCalls {F : Type} (f : FSM F) (state : String) : List Call :=
  match f.enterFuncs state with
  | some _ => [Call.enter state]
  | none => []

/-- A callback that only acts on the outside state: it leaves the machine alone and
makes no call on it. -/
def plain {F W : Type} (g : W → W × Option Error) : transitionFunc F W :=
  fun m w => ⟨m, (g w).1, [], (g w).2⟩

/-- Every source's target list is duplicate-free. -/
def NodupTable {F : Type} (f : FSM F) : Prop :=
  ∀ s ts, f.transitionMap s = some ts → ts.Nodup

/-- The pair `(source, target)` is in the transition table: `target` is in the
target list of `source` (a missing entry has no targets). -/
def HasTransition {F : Type} (f : FSM F) (source target : String) : Prop :=
  target ∈ (f.transitionMap source).getD []

instance HasTransition.decidable {F : Type} (f : FSM F) (source target : String) :
    Decidable (HasTransition f source target) :=
  inferInstanceAs (Decidable (target ∈ (f.transitionMap source).getD []))

/-- The changes of a machine that calls of its methods can make: registrations, and
the writes of the current state that `Start` and `Transition` make.  The fields
of `FSM` are not exported, so a closure of the program that uses the package
changes the machine in this way only. -/
inductive ByMethods {F : Type} : FSM F → FSM F → Prop where
  | same (m : FSM F) : ByMethods m m
  | addTransition {m m1 : FSM F} (stateA stateB : String) :
    ByMethods m m1 → ByMethods m (AddTransition m1 stateA stateB)
  | onEnter {m m1 : FSM F} (state : String) (fn : F) :
    ByMethods m m1 → ByMethods m (OnEnter m1 state fn).1
  | onExit {m m1 : FSM F} (state : String) (fn : F) :
    ByMethods m m1 → ByMethods m (OnExit m1 state fn).1
  | setCurrentState {m m1 : FSM F} (state : String) :
    ByMethods m m1 → ByMethods m { m1 with currentState := state }

/-! ## Clients of the package: sequences of calls -/

/-- One call a client can make on a machine. -/
inductive Op (F : Type) where
  | addTransition (stateA stateB : String)
  | onEnter (state : String) (fn : F)
  | onExit (state : String) (fn : F)
  | start (startState : String)
  | transition (nextState : String)

/-- The calls that only register something: `AddTransition`, `OnEnter`, `OnExit`. -/
def Op.isRegistration {F : Type} : Op F → Bool
  | Op.addTransition _ _ => true
  | Op.onEnter _ _ => true
  | Op.onExit _ _ => true
  | Op.start _ => false
  | Op.transition _ => false

/-- The outcome of one client call on machine `f` in outside state `w`. -/
def Op.call {F W : Type} (cl : Closures F W) (op : Op F) (f : FSM F) (w : W) : Outcome F W :=
  match op with
  | Op.addTransition stateA stateB => ⟨AddTransition f stateA stateB, w, [], none⟩
  | Op.onEnter state fn => ⟨(OnEnter f state fn).1, w, [], (OnEnter f state fn).2⟩
  | Op.onExit state fn => ⟨(OnExit f state fn).1, w, [], (OnExit f state fn).2⟩
  | Op.start startState => Start cl f startState w
  | Op.transition nextState => Transition cl f nextState w

/-- Where a client stands after some calls: the machine, the outside state, every
callback call made so far (oldest first) and the error each call returned
(oldest first). -/
structure Run (F W : Type) where
  machine : FSM F
  env : W
  calls : List Call
  results : List (Option Error)

/-- The client makes one more call; it goes on whatever the call returned. -/
def Run.step {F W : Type} (cl : Closures F W) (r : Run F W) (op : Op F) : Run F W :=
  let o := op.call cl r.machine r.env
  ⟨o.machine, o.env, r.calls ++ o.calls, r.results ++ [o.err]⟩

/-- The client makes the calls `ops`, in order, on machine `f` in outside state `w`. -/
def runOps {F W : Type} (cl : Closures F W) (f : FSM F) (w : W) (ops : List (Op F)) :
    Run F W :=
  ops.foldl (Run.step cl) ⟨f, w, [], []⟩

/-- The machine of `TestFuncEnter`: transitions sharing → liking → viewing, and
enter and exit callbacks on sharing and on liking. -/
def funcEnterMachine {F : Type} (enterSharing exitSharing enterLiking exitLiking : F) : FSM F :=
  let f0 : FSM F := NewFSM
  let f1 := AddTransition f0 "sharing" "liking"
  let f2 := AddTransition f1 "liking" "viewing"
  let f3 := (OnEnter f2 "sharing" enterSharing).1
  let f4 := (OnExit f3 "sharing" exitSharing).1
  let f5 := (OnEnter f4 "liking" enterLiking).1
  (OnExit f5 "liking" exitLiking).1

/-- The calls `AddTransition source target`, one for each pair of `adds`, in order. -/
def addTransitionOps {F : Type} (adds : List (String × String)) : List (Op F) :=
  adds.map (fun p => Op.addTransition p.1 p.2)

/-- The transitions registered by `TestTransition`. -/
def testTransitions : List (String × String) :=
  [("sharing", "liking"), ("sharing", "uploading"), ("liking", "discovering"),
    ("discovering", "sharing")]

/-! ## The history of registrations -/

/-- The targets of the `AddTransition` calls with source `a` among the calls `ops`,
in call order. -/
def addedTargets {F : Type} (a : String) : List (Op F) → List String
  | [] => []
  | Op.addTransition stateA stateB :: rest =>
    if stateA = a then stateB :: addedTargets a rest else addedTargets a rest
  | Op.onEnter _ _ :: rest => addedTargets a rest
  | Op.onExit _ _ :: rest => addedTargets a rest
  | Op.start _ :: rest => addedTargets a rest
  | Op.transition _ :: rest => addedTargets a rest

/-- A list with every later repeat of an element dropped: each element stays at its
first occurrence. -/
def dropLaterRepeats : List String → List String
  | [] => []
  | x :: rest => x :: (dropLaterRepeats rest).filter (fun y => decide (y ≠ x))

/-- What one `AddTransition` call does to the target list of its source: the
target is appended at the end unless it is already there. -/
def insertNew (ts : List String) (b : String) : List String :=
  if b ∈ ts then ts else ts ++ [b]

/-! ## Concrete closures and machines, used to instantiate the theorems

The outside state is a counter of the calls of the counting callbacks. -/

/-- The function values of the examples. -/
inductive Demo where
  /-- Go `func() error { n++; return nil }`. -/
  | countOk
  /-- Go `func() error { n++; return errors.New(text) }`. -/
  | countFail (text : String)
  /-- Go `func() error { f.Start(state); return errors.New(text) }`. -/
  | startThenFail (state text : String)
  /-- Go `func() error { f.Start(state); return nil }`. -/
  | startThenOk (state : String)
  /-- Go `func() error { f.Transition(state); return nil }`. -/
  | transitionThenOk (state : String)
  /-- Go `func() error { f.AddTransition(stateA, stateB); return nil }`. -/
  | addTransitionThenOk (stateA stateB : String)
  /-- Go `func() error { f.OnEnter(state, g); return nil }`, where `g` is the closure
  `countFail text`. -/
  | onEnterFailThenOk (state text : String)
deriving DecidableEq, Repr

/-- The two counting callbacks; the other function values do nothing here. -/
def demoPlain : Closures Demo Nat
  | Demo.countOk => fun m n => ⟨m, n + 1, [], none⟩
  | Demo.countFail text => fun m n => ⟨m, n + 1, [], some (errors.New text)⟩
  | _ => fun m n => ⟨m, n, [], none⟩

/-- What the function values of the examples do.  A call that a closure makes on
the machine runs the callbacks it finds as `demoPlain` does: in the machines
below these are counting callbacks, which the two tables treat alike. -/
def demo : Closures Demo Nat
  | Demo.countOk => fun m n => ⟨m, n + 1, [], none⟩
  | Demo.countFail text => fun m n => ⟨m, n + 1, [], some (errors.New text)⟩
  | Demo.startThenFail state text => fun m n =>
    ⟨(Start demoPlain m state n).machine, (Start demoPlain m state n).env,
      (Start demoPlain m state n).calls, some (errors.New text)⟩
  | Demo.startThenOk state => fun m n =>
    ⟨(Start demoPlain m state n).machine, (Start demoPlain m state n).env,
      (Start demoPlain m state n).calls, none⟩
  | Demo.transitionThenOk state => fun m n =>
    ⟨(Transition demoPlain m state n).machine, (Transition demoPlain m state n).env,
      (Transition demoPlain m state n).calls, none⟩
  | Demo.addTransitionThenOk stateA stateB => fun m n => ⟨AddTransition m stateA stateB, n, [], none⟩
  | Demo.onEnterFailThenOk state text => fun m n =>
    ⟨(OnEnter m state (Demo.countFail text)).1, n, [], none⟩

/-- A machine without transitions, started in `x`. -/
def xOnly : FSM Demo := (Start demo NewFSM "x" 0).machine

/-- A machine with the single transition `a → b`, started in `a`. -/
def abMachine : FSM Demo := (Start demo (AddTransition NewFSM "a" "b") "a" 0).machine

/-- The machine `a → b` started in `a`, with a failing exit callback on `a` and an
enter callback on `b`. -/
def exitFailMachine : FSM Demo :=
  (OnEnter (OnExit abMachine "a" (Demo.countFail "exit a failed")).1 "b" Demo.countOk).1

/-- The machine `a → b` started in `a`, with an exit callback on `a` and a failing
enter callback on `b`. -/
def enterFailMachine : FSM Demo :=
  (OnEnter (OnExit abMachine "a" Demo.countOk).1 "b" (Demo.countFail "enter b failed")).1

/-- The machine `a → b` started in `a`, whose exit callback on `a` fails with `boom`. -/
def boomExitMachine : FSM Demo := (OnExit abMachine "a" (Demo.countFail "boom")).1

/-- The machine `a → b` started in `a`, whose enter callback on `b` fails with `boom`. -/
def boomEnterMachine : FSM Demo := (OnEnter abMachine "b" (Demo.countFail "boom")).1

/-- The machine `a → b` started in `a`, with counting callbacks on the exit of `a`
and on the enter of `b`. -/
def countingMachine : FSM Demo :=
  (OnEnter (OnExit abMachine "a" Demo.countOk).1 "b" Demo.countOk).1

/-- The machine `a → b` started in `a`, whose exit callback on `a` registers a
failing enter callback for `b`. -/
def lateEnterMachine : FSM Demo := (OnExit abMachine "a" (Demo.onEnterFailThenOk "b" "late")).1

/-- The machine `a → b` started in `a`, whose exit callback on `a` calls
`f.Start("z")` and then fails with `boom`. -/
def restartExitMachine : FSM Demo := (OnExit abMachine "a" (Demo.startThenFail "z" "boom")).1

/-- The machine `a → b` started in `a`, whose enter callback on `b` calls
`f.Start("z")` and then fails with `boom`. -/
def restartEnterMachine : FSM Demo := (OnEnter abMachine "b" (Demo.startThenFail "z" "boom")).1

/-- The machine `a → b` started in `a`, whose exit callback on `a` calls
`f.Start("q")`, with a counting enter callback on `q`. -/
def nestedCallMachine : FSM Demo :=
  (OnEnter (OnExit abMachine "a" (Demo.startThenOk "q")).1 "q" Demo.countOk).1

/-- The machine `a → b` started in `a`, with a counting exit callback on `a`, whose
enter callback on `s` calls `f.Transition("b")`. -/
def nestedTransitionMachine : FSM Demo :=
  (OnEnter (OnExit abMachine "a" Demo.countOk).1 "s" (Demo.transitionThenOk "b")).1

/-- A new machine whose enter callback on `s` calls `f.Start("z")` and then fails
with `boom`. -/
def restartStartMachine : FSM Demo := (OnEnter NewFSM "s" (Demo.startThenFail "z" "boom")).1

/-- The machine `a → b` started in `a`, whose exit callback on `a` calls
`f.AddTransition("a", "c")`. -/
def addingMachine : FSM Demo := (OnExit abMachine "a" (Demo.addTransitionThenOk "a" "c")).1

theorem searchLoop_eq_true_iff (ts : List String) (s : String) :
    searchLoop ts s = true ↔ s ∈ ts := by
  induction ts with
  | nil => simp [searchLoop]
  | cons t rest ih =>
    by_cases h : t = s
    · simp [searchLoop, h]
    · have h2 : ¬ s = t := fun e => h e.symm
      simp [searchLoop, h, h2, ih]

theorem searchLoop_eq_false_iff (ts : List String) (s : String) :
    searchLoop ts s = false ↔ s ∉ ts := by
  rw [← searchLoop_eq_true_iff]; simp

theorem GoMap.set_self {V : Type} (m : GoMap V) (key : String) (value : V) :
    m.set key value key = some value := by
  simp [GoMap.set]

theorem GoMap.set_of_ne {V : Type} (m : GoMap V) (key k : String) (value : V) (h : k ≠ key) :
    m.set key value k = m k := by
  simp [GoMap.set, h]

theorem GoMap.set_set {V : Type} (m : GoMap V) (key : String) (v1 v2 : V) :
    (m.set key v1).set key v2 = m.set key v2 := by
  funext k
  by_cases h : k = key <;> simp [GoMap.set, h]

/-! ### The three ways a `Transition` call ends -/

theorem afterExit_of_some {F W : Type} (cl : Closures F W) (f : FSM F) (w : W) (exitFun : F)
    (h : f.exitFuncs f.currentState = some exitFun) :
    afterExit cl f w = ⟨(cl exitFun f w).machine, (cl exitFun f w).env,
      Call.exit f.currentState :: (cl exitFun f w).calls, (cl exitFun f w).err⟩ := by
  unfold afterExit
  rw [h]

theorem afterExit_of_none {F W : Type} (cl : Closures F W) (f : FSM F) (w : W)
    (h : f.exitFuncs f.currentState = none) :
    afterExit cl f w = ⟨f, w, [], none⟩ := by
  unfold afterExit
  rw [h]

theorem afterEnter_of_some {F W : Type} (cl : Closures F W) (f : FSM F) (t : String) (w : W)
    (enterFun : F) (h : (afterExit cl f w).machine.enterFuncs t = some enterFun) :
    afterEnter cl f t w =
      ⟨(cl enterFun (afterExit cl f w).machine (afterExit cl f w).env).machine,
        (cl enterFun (afterExit cl f w).machine (afterExit cl f w).env).env,
        (afterExit cl f w).calls
          ++ Call.enter t :: (cl enterFun (afterExit cl f w).machine (afterExit cl f w).env).calls,
        (cl enterFun (afterExit cl f w).machine (afterExit cl f w).env).err⟩ := by
  unfold afterEnter
  rw [h]

theorem afterEnter_of_none {F W : Type} (cl : Closures F W) (f : FSM F) (t : String) (w : W)
    (h : (afterExit cl f w).machine.enterFuncs t = none) :
    afterEnter cl f t w =
      ⟨(afterExit cl f w).machine, (afterExit cl f w).env, (afterExit cl f w).calls, none⟩ := by
  unfold afterEnter
  rw [h]

/-- A `Transition` call that passes validation, told in terms of `afterExit` and
`afterEnter`. -/
theorem Transition_of_valid {F W : Type} (cl : Closures F W) (f : FSM F) (t : String) (w : W)
    (hv : HasTransition f f.currentState t) :
    Transition cl f t w =
      match (afterExit cl f w).err with
      | some err => ⟨(afterExit cl f w).machine, (afterExit cl f w).env,
          (afterExit cl f w).calls, some err⟩
      | none =>
        match (afterEnter cl f t w).err with
        | some err => ⟨(afterEnter cl f t w).machine, (afterEnter cl f t w).env,
            (afterEnter cl f t w).calls, some err⟩
        | none => ⟨{ (afterEnter cl f t w).machine with currentState := t },
            (afterEnter cl f t w).env, (afterEnter cl f t w).calls, none⟩ := by
  unfold HasTransition at hv
  unfold Transition
  cases hT : f.transitionMap f.currentState with
  | none => simp [hT] at hv
  | some ts =>
    rw [hT] at hv
    have hs : searchLoop ts t = true := (searchLoop_eq_true_iff ts t).2 (by simpa using hv)
    simp only [hs, Bool.true_eq_false, if_false]
    rfl

theorem Transition_of_exit_error {F W : Type} (cl : Closures F W) (f : FSM F) (t : String)
    (w : W) (e : Error) (hv : HasTransition f f.currentState t)
    (he : (afterExit cl f w).err = some e) :
    Transition cl f t w = ⟨(afterExit cl f w).machine, (afterExit cl f w).env,
      (afterExit cl f w).calls, some e⟩ := by
  rw [Transition_of_valid cl f t w hv]
  simp only [he]

theorem Transition_of_enter_error {F W : Type} (cl : Closures F W) (f : FSM F) (t : String)
    (w : W) (e : Error) (hv : HasTransition f f.currentState t)
    (hx : (afterExit cl f w).err = none) (he : (afterEnter cl f t w).err = some e) :
    Transition cl f t w = ⟨(afterEnter cl f t w).machine, (afterEnter cl f t w).env,
      (afterEnter cl f t w).calls, some e⟩ := by
  rw [Transition_of_valid cl f t w hv]
  simp only [hx, he]

theorem Transition_of_success {F W : Type} (cl : Closures F W) (f : FSM F) (t : String)
    (w : W) (hv : HasTransition f f.currentState t)
    (hx : (afterExit cl f w).err = none) (he : (afterEnter cl f t w).err = none) :
    Transition cl f t w = ⟨{ (afterEnter cl f t w).machine with currentState := t },
      (afterEnter cl f t w).env, (afterEnter cl f t w).calls, none⟩ := by
  rw [Transition_of_valid cl f t w hv]
  simp only [hx, he]

theorem Transition_of_no_entry {F W : Type} (cl : Closures F W) (f : FSM F) (t : String)
    (w : W) (h : f.transitionMap f.currentState = none) :
    Transition cl f t w = ⟨f, w, [],
      some (errors.New ("Could not transition to " ++ t ++ ". State does not exist"))⟩ := by
  unfold Transition
  rw [h]

theorem Transition_of_not_target {F W : Type} (cl : Closures F W) (f : FSM F) (t : String)
    (w : W) (ts : List String) (h : f.transitionMap f.currentState = some ts) (ht : t ∉ ts) :
    Transition cl f t w = ⟨f, w, [],
      some (errors.New ("Invalid transition from " ++ f.currentState ++ " to " ++ t))⟩ := by
  have hs : searchLoop ts t = false := (searchLoop_eq_false_iff ts t).2 ht
  unfold Transition
  rw [h]
  simp only [hs, if_true]

theorem Start_of_none {F W : Type} (cl : Closures F W) (f : FSM F) (s : String) (w : W)
    (h : f.enterFuncs s = none) :
    Start cl f s w = ⟨{ f with currentState := s }, w, [], none⟩ := by
  unfold Start
  rw [h]

theorem Start_of_error {F W : Type} (cl : Closures F W) (f : FSM F) (s : String) (w : W)
    (fn : F) (e : Error) (h : f.enterFuncs s = some fn) (he : (cl fn f w).err = some e) :
    Start cl f s w = ⟨(cl fn f w).machine, (cl fn f w).env,
      Call.enter s :: (cl fn f w).calls, some e⟩ := by
  unfold Start
  rw [h]
  simp only [he]

theorem Start_of_success {F W : Type} (cl : Closures F W) (f : FSM F) (s : String) (w : W)
    (fn : F) (h : f.enterFuncs s = some fn) (he : (cl fn f w).err = none) :
    Start cl f s w = ⟨{ (cl fn f w).machine with currentState := s }, (cl fn f w).env,
      Call.enter s :: (cl fn f w).calls, none⟩ := by
  unfold Start
  rw [h]
  simp only [he]

/-- Validation passes exactly when the target is among the targets of the current state. -/
theorem Transition_of_invalid {F W : Type} (cl : Closures F W) (f : FSM F) (t : String) (w : W)
    (hno : ¬ HasTransition f f.currentState t) :
    (Transition cl f t w).machine = f ∧ (Transition cl f t w).env = w ∧
      (Transition cl f t w).calls = [] ∧
      ((Transition cl f t w).err
          = some (errors.New ("Could not transition to " ++ t ++ ". State does not exist")) ∨
       (Transition cl f t w).err
          = some (errors.New ("Invalid transition from " ++ f.currentState ++ " to " ++ t))) := by
  unfold HasTransition at hno
  cases hT : f.transitionMap f.currentState with
  | none =>
    rw [Transition_of_no_entry cl f t w hT]
    simp
  | some ts =>
    rw [hT] at hno
    rw [Transition_of_not_target cl f t w ts hT (by simpa using hno)]
    simp

theorem Transition_err_none_iff {F W : Type} (cl : Closures F W) (f : FSM F) (t : String)
    (w : W) :
    (Transition cl f t w).err = none ↔
      HasTransition f f.currentState t ∧ (afterExit cl f w).err = none ∧
        (afterEnter cl f t w).err = none := by
  by_cases hv : HasTransition f f.currentState t
  · cases hx : (afterExit cl f w).err with
    | some e =>
      rw [Transition_of_exit_error cl f t w e hv hx]
      simp
    | none =>
      cases hn : (afterEnter cl f t w).err with
      | some e =>
        rw [Transition_of_enter_error cl f t w e hv hx hn]
        simp
      | none =>
        rw [Transition_of_success cl f t w hv hx hn]
        simp [hv]
  · obtain ⟨_, _, _, he⟩ := Transition_of_invalid cl f t w hv
    constructor
    · intro h
      rcases he with h2 | h2 <;> rw [h2] at h <;> cases h
    · intro h
      exact absurd h.1 hv

theorem Transition_currentState_of_success {F W : Type} (cl : Closures F W) (f : FSM F)
    (t : String) (w : W) (h : (Transition cl f t w).err = none) :
    (Transition cl f t w).machine.currentState = t := by
  obtain ⟨hv, hx, hn⟩ := (Transition_err_none_iff cl f t w).1 h
  rw [Transition_of_success cl f t w hv hx hn]

/-! ## `Transition` -/

theorem HasTransition_iff {F : Type} (f : FSM F) (s t : String) :
    HasTransition f s t ↔ ∃ ts, f.transitionMap s = some ts ∧ t ∈ ts := by
  unfold HasTransition
  cases f.transitionMap s with
  | none => simp
  | some ts => simp

theorem afterExit_err_none_iff {F W : Type} (cl : Closures F W) (f : FSM F) (w : W) :
    (afterExit cl f w).err = none ↔
      ∀ exitFun, f.exitFuncs f.currentState = some exitFun → (cl exitFun f w).err = none := by
  cases hX : f.exitFuncs f.currentState with
  | none => simp [afterExit_of_none cl f w hX]
  | some exitFun => simp [afterExit_of_some cl f w exitFun hX]

theorem afterEnter_err_none_iff {F W : Type} (cl : Closures F W) (f : FSM F) (t : String)
    (w : W) :
    (afterEnter cl f t w).err = none ↔
      ∀ enterFun, (afterExit cl f w).machine.enterFuncs t = some enterFun →
        (cl enterFun (afterExit cl f w).machine (afterExit cl f w).env).err = none := by
  cases hE : (afterExit cl f w).machine.enterFuncs t with
  | none => simp [afterEnter_of_none cl f t w hE]
  | some enterFun => simp [afterEnter_of_some cl f t w enterFun hE]

/-- C1 refuted as stated: in state `a`, with `b` a registered target, the exit
callback of `a` returns no error and no enter callback is registered for `b`;
but that exit callback registers a failing enter callback for `b`, which
`Transition "b"` then finds and calls: it returns the error `late`. -/
theorem Transition_succeeds_counterexample :
    lateEnterMachine.currentState = "a" ∧
    lateEnterMachine.transitionMap "a" = some ["b"] ∧
    lateEnterMachine.exitFuncs "a" = some (Demo.onEnterFailThenOk "b" "late") ∧
    (demo (Demo.onEnterFailThenOk "b" "late") lateEnterMachine 0).err = none ∧
    lateEnterMachine.enterFuncs "b" = none ∧
    (Transition demo lateEnterMachine "b" 0).err = some (errors.New "late") ∧
    (Transition demo lateEnterMachine "b" 0).err ≠ none := by
  refine ⟨rfl, rfl, rfl, rfl, rfl, rfl, ?_⟩
  decide

/-- C1 as amended: whatever the callbacks do, `Transition t` returns no error
exactly when `t` is among the registered targets of the current state, the exit
callback of the current state (if one is registered) returns no error, and the
enter callback that is registered for `t` once that exit callback has run (if
one is) returns no error; and whenever it returns no error the current state
afterwards is `t`. -/
theorem Transition_succeeds_iff {F W : Type} (cl : Closures F W) (f : FSM F) (t : String)
    (w : W) :
    ((Transition cl f t w).err = none ↔
      (∃ ts, f.transitionMap f.currentState = some ts ∧ t ∈ ts) ∧
      (∀ exitFun, f.exitFuncs f.currentState = some exitFun → (cl exitFun f w).err = none) ∧
      (∀ enterFun, (afterExit cl f w).machine.enterFuncs t = some enterFun →
        (cl enterFun (afterExit cl f w).machine (afterExit cl f w).env).err = none)) ∧
    ((Transition cl f t w).err = none → (Transition cl f t w).machine.currentState = t) := by
  refine ⟨?_, Transition_currentState_of_success cl f t w⟩
  rw [Transition_err_none_iff, HasTransition_iff, afterExit_err_none_iff,
    afterEnter_err_none_iff]

/-- Two instances of the amended C1: a transition with two counting callbacks
succeeds and ends in `b`; a transition whose exit callback registers a failing
enter callback for the target does not succeed, because that enter callback is
then found and fails. -/
theorem Transition_succeeds_iff_witness :
    (Transition demo countingMachine "b" 0).machine.currentState = "b" ∧
    (Transition demo lateEnterMachine "b" 0).err ≠ none :=
  ⟨(Transition_succeeds_iff demo countingMachine "b" 0).2 rfl,
    fun h => Option.noConfusion
      (((Transition_succeeds_iff demo lateEnterMachine "b" 0).1.1 h).2.2
        (Demo.countFail "late") rfl)⟩

/-- C2 (unknown-source rejection): when the current state `x` has no entry in the
transition table, `Transition y` fails with the message
`"Could not transition to " ++ y ++ ". State does not exist"`, calls no callback,
leaves the outside state alone and leaves the machine (so the current state `x`)
as it was. -/
theorem Transition_unknown_source {F W : Type} (cl : Closures F W) (f : FSM F) (x y : String)
    (w : W) (hx : f.currentState = x) (hno : f.transitionMap x = none) :
    (Transition cl f y w).err
        = some (errors.New ("Could not transition to " ++ y ++ ". State does not exist")) ∧
      (Transition cl f y w).calls = [] ∧
      (Transition cl f y w).env = w ∧
      (Transition cl f y w).machine = f ∧
      (Transition cl f y w).machine.currentState = x := by
  subst hx
  rw [Transition_of_no_entry cl f y w hno]
  exact ⟨rfl, rfl, rfl, rfl, rfl⟩

/-- C3 (invalid-target rejection): when the current state `a` has an entry in the
transition table and `c` is not in its target list, `Transition c` fails with the
message `"Invalid transition from " ++ a ++ " to " ++ c`, calls no callback
(neither the exit callback of `a` nor the enter callback of `c`), leaves the
outside state alone and leaves the whole machine exactly as it was. -/
theorem Transition_invalid_target {F W : Type} (cl : Closures F W) (f : FSM F) (a c : String)
    (ts : List String) (w : W) (ha : f.currentState = a) (hts : f.transitionMap a = some ts)
    (hc : c ∉ ts) :
    (Transition cl f c w).err
        = some (errors.New ("Invalid transition from " ++ a ++ " to " ++ c)) ∧
      (Transition cl f c w).calls = [] ∧
      Call.exit a ∉ (Transition cl f c w).calls ∧
      Call.enter c ∉ (Transition cl f c w).calls ∧
      (Transition cl f c w).env = w ∧
      (Transition cl f c w).machine = f := by
  subst ha
  rw [Transition_of_not_target cl f c w ts hts hc]
  simp

/-- C4 refuted as stated: the exit callback of `a` calls `f.Start("z")` and then
returns the error `boom`; `Transition "b"` returns `boom`, but the current state
is now `z`, not `a`. -/
theorem exit_failure_counterexample :
    restartExitMachine.currentState = "a" ∧
    restartExitMachine.transitionMap "a" = some ["b"] ∧
    restartExitMachine.exitFuncs "a" = some (Demo.startThenFail "z" "boom") ∧
    (demo (Demo.startThenFail "z" "boom") restartExitMachine 0).err
      = some (errors.New "boom") ∧
    (Transition demo restartExitMachine "b" 0).err = some (errors.New "boom") ∧
    (Transition demo restartExitMachine "b" 0).machine.currentState = "z" ∧
    (Transition demo restartExitMachine "b" 0).machine.currentState ≠ "a" := by
  refine ⟨rfl, rfl, rfl, rfl, rfl, rfl, ?_⟩
  decide

/-- C4 as amended (exit-failure short-circuit): in current state `a` with `b` among
the registered targets of `a`, if the exit callback registered for `a` returns
the error `e`, then `Transition b` returns exactly `e` and calls nothing after
that exit callback (the enter callback of `b` is not called by `Transition`);
the outside state and the machine are the ones the exit callback left, so the
current state is still `a` unless the exit callback itself changed it. -/
theorem Transition_exit_failure {F W : Type} (cl : Closures F W) (f : FSM F) (a b : String)
    (ts : List String) (exitFun : F) (e : Error) (w : W)
    (ha : f.currentState = a) (hts : f.transitionMap a = some ts) (hb : b ∈ ts)
    (hexit : f.exitFuncs a = some exitFun) (hfail : (cl exitFun f w).err = some e) :
    (Transition cl f b w).err = some e ∧
      (Transition cl f b w).calls = Call.exit a :: (cl exitFun f w).calls ∧
      (Transition cl f b w).env = (cl exitFun f w).env ∧
      (Transition cl f b w).machine = (cl exitFun f w).machine ∧
      ((cl exitFun f w).machine.currentState = a →
        (Transition cl f b w).machine.currentState = a) ∧
      ((cl exitFun f w).machine = f → (Transition cl f b w).machine = f) ∧
      ((cl exitFun f w).calls = [] → (Transition cl f b w).calls = [Call.exit a] ∧
        Call.enter b ∉ (Transition cl f b w).calls) := by
  subst ha
  have hv : HasTransition f f.currentState b := (HasTransition_iff f _ b).2 ⟨ts, hts, hb⟩
  have hx := afterExit_of_some cl f w exitFun hexit
  have he : (afterExit cl f w).err = some e := by rw [hx]; exact hfail
  rw [Transition_of_exit_error cl f b w e hv he, hx]
  refine ⟨rfl, rfl, rfl, rfl, fun h => h, fun h => h, ?_⟩
  intro hc
  simp [hc]

/-- An instance of the amended C4: the exit callback of `a` fails without touching
the machine. -/
theorem Transition_exit_failure_witness :
    (Transition demo exitFailMachine "b" 0).err = some (errors.New "exit a failed") ∧
      (Transition demo exitFailMachine "b" 0).calls = [Call.exit "a"] ∧
      (Transition demo exitFailMachine "b" 0).env = 1 ∧
      (Transition demo exitFailMachine "b" 0).machine = exitFailMachine ∧
      (Transition demo exitFailMachine "b" 0).machine.currentState = "a" :=
  have h := Transition_exit_failure demo exitFailMachine "a" "b" ["b"]
    (Demo.countFail "exit a failed") (errors.New "exit a failed") 0 rfl rfl (by decide) rfl rfl
  ⟨h.1, h.2.1, h.2.2.1, h.2.2.2.1, h.2.2.2.2.1 rfl⟩

/-- C5 refuted as stated: the enter callback of `b` calls `f.Start("z")` and then
returns the error `boom`; `Transition "b"` returns `boom`, but the current state
is now `z`, not `a`. -/
theorem enter_failure_counterexample :
    restartEnterMachine.currentState = "a" ∧
    restartEnterMachine.transitionMap "a" = some ["b"] ∧
    restartEnterMachine.exitFuncs "a" = none ∧
    restartEnterMachine.enterFuncs "b" = some (Demo.startThenFail "z" "boom") ∧
    (demo (Demo.startThenFail "z" "boom") restartEnterMachine 0).err
      = some (errors.New "boom") ∧
    (Transition demo restartEnterMachine "b" 0).err = some (errors.New "boom") ∧
    (Transition demo restartEnterMachine "b" 0).machine.currentState = "z" ∧
    (Transition demo restartEnterMachine "b" 0).machine.currentState ≠ "a" := by
  refine ⟨rfl, rfl, rfl, rfl, rfl, rfl, rfl, ?_⟩
  decide

/-- C5 as amended (enter-failure abort): in current state `a` with `b` among the
registered targets of `a`, if the exit callback of `a` is absent or returns no
error and the enter callback found for `b` after it returns the error `e`, then
`Transition b` returns exactly `e` and does not write the current state: the
machine and the outside state are the ones the enter callback left, after the
exit callback of `a` (when registered) was called once, first, with its effects
kept.  So the current state is still `a` unless a callback itself changed it. -/
theorem Transition_enter_failure {F W : Type} (cl : Closures F W) (f : FSM F) (a b : String)
    (ts : List String) (enterFun : F) (e : Error) (w : W)
    (ha : f.currentState = a) (hts : f.transitionMap a = some ts) (hb : b ∈ ts)
    (hexit : ∀ exitFun, f.exitFuncs a = some exitFun → (cl exitFun f w).err = none)
    (henter : (afterExit cl f w).machine.enterFuncs b = some enterFun)
    (hfail : (cl enterFun (afterExit cl f w).machine (afterExit cl f w).env).err = some e) :
    (Transition cl f b w).err = some e ∧
      (Transition cl f b w).machine
        = (cl enterFun (afterExit cl f w).machine (afterExit cl f w).env).machine ∧
      (Transition cl f b w).env
        = (cl enterFun (afterExit cl f w).machine (afterExit cl f w).env).env ∧
      (Transition cl f b w).calls = (afterExit cl f w).calls
        ++ Call.enter b :: (cl enterFun (afterExit cl f w).machine (afterExit cl f w).env).calls ∧
      (∀ exitFun, f.exitFuncs a = some exitFun →
        (afterExit cl f w).machine = (cl exitFun f w).machine ∧
        (afterExit cl f w).env = (cl exitFun f w).env ∧
        (afterExit cl f w).calls = Call.exit a :: (cl exitFun f w).calls) ∧
      (f.exitFuncs a = none → (afterExit cl f w).machine = f ∧ (afterExit cl f w).env = w ∧
        (afterExit cl f w).calls = []) ∧
      ((cl enterFun (afterExit cl f w).machine (afterExit cl f w).env).machine.currentState = a →
        (Transition cl f b w).machine.currentState = a) := by
  subst ha
  have hv : HasTransition f f.currentState b := (HasTransition_iff f _ b).2 ⟨ts, hts, hb⟩
  have hx : (afterExit cl f w).err = none := (afterExit_err_none_iff cl f w).2 hexit
  have hn := afterEnter_of_some cl f b w enterFun henter
  have he : (afterEnter cl f b w).err = some e := by rw [hn]; exact hfail
  rw [Transition_of_enter_error cl f b w e hv hx he, hn]
  refine ⟨rfl, rfl, rfl, rfl, ?_, ?_, fun h => h⟩
  · intro exitFun hX
    rw [afterExit_of_some cl f w exitFun hX]
    exact ⟨rfl, rfl, rfl⟩
  · intro hX
    rw [afterExit_of_none cl f w hX]
    exact ⟨rfl, rfl, rfl⟩

/-- An instance of the amended C5: the exit callback of `a` has run, the enter
callback of `b` fails, neither touches the machine. -/
theorem Transition_enter_failure_witness :
    (Transition demo enterFailMachine "b" 0).err = some (errors.New "enter b failed") ∧
      (Transition demo enterFailMachine "b" 0).machine = enterFailMachine ∧
      (Transition demo enterFailMachine "b" 0).env = 2 ∧
      (Transition demo enterFailMachine "b" 0).calls = [Call.exit "a", Call.enter "b"] ∧
      (Transition demo enterFailMachine "b" 0).machine.currentState = "a" :=
  have h := Transition_enter_failure demo enterFailMachine "a" "b" ["b"]
    (Demo.countFail "enter b failed") (errors.New "enter b failed") 0 rfl rfl (by decide)
    (fun exitFun hX => by
      have h2 : exitFun = Demo.countOk := (Option.some.inj hX).symm
      subst h2
      rfl)
    rfl rfl
  ⟨h.1, h.2.1, h.2.2.1, h.2.2.2.1, h.2.2.2.2.2.2 rfl⟩

/-- An instance of unknown-source rejection: no transition is registered for `x`. -/
theorem Transition_unknown_source_witness :
    (Transition demo xOnly "y" 0).err
        = some (errors.New "Could not transition to y. State does not exist") ∧
      (Transition demo xOnly "y" 0).calls = [] ∧
      (Transition demo xOnly "y" 0).env = 0 ∧
      (Transition demo xOnly "y" 0).machine = xOnly ∧
      (Transition demo xOnly "y" 0).machine.currentState = "x" :=
  Transition_unknown_source demo xOnly "x" "y" 0 rfl rfl

/-- An instance of invalid-target rejection: only `a → b` is registered. -/
theorem Transition_invalid_target_witness :
    (Transition demo abMachine "c" 0).err = some (errors.New "Invalid transition from a to c") ∧
      (Transition demo abMachine "c" 0).calls = [] ∧
      Call.exit "a" ∉ (Transition demo abMachine "c" 0).calls ∧
      Call.enter "c" ∉ (Transition demo abMachine "c" 0).calls ∧
      (Transition demo abMachine "c" 0).env = 0 ∧
      (Transition demo abMachine "c" 0).machine = abMachine :=
  Transition_invalid_target demo abMachine "a" "c" ["b"] 0 rfl rfl (by decide)

/-! ## Callback order -/

theorem Transition_outcome_of_success {F W : Type} (cl : Closures F W) (f : FSM F)
    (t : String) (w : W) (h : (Transition cl f t w).err = none) :
    Transition cl f t w = ⟨{ (afterEnter cl f t w).machine with currentState := t },
      (afterEnter cl f t w).env, (afterEnter cl f t w).calls, none⟩ := by
  obtain ⟨hv, hx, hn⟩ := (Transition_err_none_iff cl f t w).1 h
  exact Transition_of_success cl f t w hv hx hn

/-- C6 refuted as stated: the exit callback of `a` calls `f.Start("q")`, which runs
the enter callback of `q`; the successful `Transition "b"` so runs a callback
that is neither the exit callback of `a` nor the enter callback of `b`. -/
theorem callback_ordering_counterexample :
    nestedCallMachine.currentState = "a" ∧
    (Transition demo nestedCallMachine "b" 0).err = none ∧
    (Transition demo nestedCallMachine "b" 0).calls = [Call.exit "a", Call.enter "q"] ∧
    exitCalls nestedCallMachine "a" ++ enterCalls nestedCallMachine "b" = [Call.exit "a"] ∧
    (Transition demo nestedCallMachine "b" 0).calls
      ≠ exitCalls nestedCallMachine "a" ++ enterCalls nestedCallMachine "b" := by
  refine ⟨rfl, rfl, rfl, rfl, ?_⟩
  decide

/-- C6 as amended (callback ordering): a `Transition` from `s` to `t` that returns
no error itself calls exactly the exit callback of `s` (once, if registered) and
then the enter callback found for `t` after it (once, if any), in that order:
the outside state and the machine it leaves are the ones these two calls leave,
one after the other, and every other callback called meanwhile is called from
within one of the two.  Consequently, on the machine of `TestFuncEnter`, with
callbacks that only act on the outside state, whenever `Start "sharing"`,
`Transition "liking"`, `Transition "viewing"` all return no error, the callbacks
called are exactly enter(sharing), exit(sharing), enter(liking), exit(liking), in
that order, each once, and the outside state is the one these four leave in
that order. -/
theorem callback_ordering {F W : Type} (cl : Closures F W) :
    (∀ (f : FSM F) (t : String) (w : W), (Transition cl f t w).err = none →
      (∀ exitFun enterFun, f.exitFuncs f.currentState = some exitFun →
        (cl exitFun f w).machine.enterFuncs t = some enterFun →
        (Transition cl f t w).calls = Call.exit f.currentState :: (cl exitFun f w).calls
          ++ Call.enter t
            :: (cl enterFun (cl exitFun f w).machine (cl exitFun f w).env).calls ∧
        (Transition cl f t w).env
          = (cl enterFun (cl exitFun f w).machine (cl exitFun f w).env).env ∧
        (Transition cl f t w).machine
          = { (cl enterFun (cl exitFun f w).machine (cl exitFun f w).env).machine with
              currentState := t }) ∧
      (∀ exitFun, f.exitFuncs f.currentState = some exitFun →
        (cl exitFun f w).machine.enterFuncs t = none →
        (Transition cl f t w).calls = Call.exit f.currentState :: (cl exitFun f w).calls ∧
        (Transition cl f t w).env = (cl exitFun f w).env ∧
        (Transition cl f t w).machine = { (cl exitFun f w).machine with currentState := t }) ∧
      (∀ enterFun, f.exitFuncs f.currentState = none → f.enterFuncs t = some enterFun →
        (Transition cl f t w).calls = Call.enter t :: (cl enterFun f w).calls ∧
        (Transition cl f t w).env = (cl enterFun f w).env ∧
        (Transition cl f t w).machine = { (cl enterFun f w).machine with currentState := t }) ∧
      (f.exitFuncs f.currentState = none → f.enterFuncs t = none →
        (Transition cl f t w).calls = [] ∧ (Transition cl f t w).env = w ∧
        (Transition cl f t w).machine = { f with currentState := t })) ∧
    (∀ (enterSharing exitSharing enterLiking exitLiking : F)
      (gES gXS gEL gXL : W → W × Option Error) (w : W),
      cl enterSharing = plain gES → cl exitSharing = plain gXS →
      cl enterLiking = plain gEL → cl exitLiking = plain gXL →
      (runOps cl (funcEnterMachine enterSharing exitSharing enterLiking exitLiking) w
          [Op.start "sharing", Op.transition "liking", Op.transition "viewing"]).results
        = [none, none, none] →
      (runOps cl (funcEnterMachine enterSharing exitSharing enterLiking exitLiking) w
          [Op.start "sharing", Op.transition "liking", Op.transition "viewing"]).calls
        = [Call.enter "sharing", Call.exit "sharing", Call.enter "liking", Call.exit "liking"] ∧
      (runOps cl (funcEnterMachine enterSharing exitSharing enterLiking exitLiking) w
          [Op.start "sharing", Op.transition "liking", Op.transition "viewing"]).env
        = (gXL (gEL (gXS (gES w).1).1).1).1 ∧
      (runOps cl (funcEnterMachine enterSharing exitSharing enterLiking exitLiking) w
          [Op.start "sharing", Op.transition "liking",
            Op.transition "viewing"]).machine.currentState = "viewing") := by
  constructor
  · intro f t w h
    have ho := Transition_outcome_of_success cl f t w h
    refine ⟨?_, ?_, ?_, ?_⟩
    · intro exitFun enterFun hX hE
      have hx := afterExit_of_some cl f w exitFun hX
      have hn := afterEnter_of_some cl f t w enterFun (by rw [hx]; exact hE)
      rw [ho, hn, hx]
      exact ⟨rfl, rfl, rfl⟩
    · intro exitFun hX hE
      have hx := afterExit_of_some cl f w exitFun hX
      have hn := afterEnter_of_none cl f t w (by rw [hx]; exact hE)
      rw [ho, hn, hx]
      exact ⟨rfl, rfl, rfl⟩
    · intro enterFun hX hE
      have hx := afterExit_of_none cl f w hX
      have hn := afterEnter_of_some cl f t w enterFun (by rw [hx]; exact hE)
      rw [ho, hn, hx]
      exact ⟨rfl, rfl, rfl⟩
    · intro hX hE
      have hx := afterExit_of_none cl f w hX
      have hn := afterEnter_of_none cl f t w (by rw [hx]; exact hE)
      rw [ho, hn, hx]
      exact ⟨rfl, rfl, rfl⟩
  · intro enterSharing exitSharing enterLiking exitLiking gES gXS gEL gXL w hES hXS hEL hXL
    rcases h1 : gES w with ⟨w1, _ | e1⟩
    · rcases h2 : gXS w1 with ⟨w2, _ | e2⟩
      · rcases h3 : gEL w2 with ⟨w3, _ | e3⟩
        · rcases h4 : gXL w3 with ⟨w4, _ | e4⟩ <;>
            simp [runOps, Run.step, Op.call, Start, Transition, funcEnterMachine, AddTransition,
              OnEnter, OnExit, GoMap.set, GoMap.empty, NewFSM, searchLoop, plain,
              hES, hXS, hEL, hXL, h1, h2, h3, h4]
        · simp [runOps, Run.step, Op.call, Start, Transition, funcEnterMachine, AddTransition,
              OnEnter, OnExit, GoMap.set, GoMap.empty, NewFSM, searchLoop, plain,
              hES, hXS, hEL, hXL, h1, h2, h3]
      · simp [runOps, Run.step, Op.call, Start, Transition, funcEnterMachine, AddTransition,
              OnEnter, OnExit, GoMap.set, GoMap.empty, NewFSM, searchLoop, plain,
              hES, hXS, hEL, hXL, h1, h2]
    · simp [runOps, Run.step, Op.call, Start, Transition, funcEnterMachine, AddTransition,
              OnEnter, OnExit, GoMap.set, GoMap.empty, NewFSM, searchLoop, plain,
              hES, hXS, hEL, hXL, h1]

/-- An instance of the amended C6: a successful transition with two counting
callbacks, and the successful run of `TestFuncEnter` with four counting
callbacks, which leaves the counter at four. -/
theorem callback_ordering_witness :
    ((Transition demo countingMachine "b" 0).calls = [Call.exit "a", Call.enter "b"] ∧
      (Transition demo countingMachine "b" 0).env = 2) ∧
    ((runOps demo (funcEnterMachine Demo.countOk Demo.countOk Demo.countOk Demo.countOk) 0
        [Op.start "sharing", Op.transition "liking", Op.transition "viewing"]).calls
      = [Call.enter "sharing", Call.exit "sharing", Call.enter "liking", Call.exit "liking"] ∧
     (runOps demo (funcEnterMachine Demo.countOk Demo.countOk Demo.countOk Demo.countOk) 0
        [Op.start "sharing", Op.transition "liking", Op.transition "viewing"]).env = 4) :=
  have h1 := ((callback_ordering demo).1 countingMachine "b" 0 rfl).1
    Demo.countOk Demo.countOk rfl rfl
  have h2 := (callback_ordering demo).2 Demo.countOk Demo.countOk Demo.countOk Demo.countOk
    (fun n => (n + 1, none)) (fun n => (n + 1, none)) (fun n => (n + 1, none))
    (fun n => (n + 1, none)) 0 rfl rfl rfl rfl rfl
  ⟨⟨h1.1, h1.2.1⟩, ⟨h2.1, h2.2.1⟩⟩

/-! ## `Start` -/

/-- C7 refuted as stated: the enter callback of `s` returns no error but calls
`f.Transition("b")`, which runs the exit callback of the previously current
state `a`: an exit callback is called during `Start "s"`. -/
theorem Start_success_counterexample :
    nestedTransitionMachine.currentState = "a" ∧
    nestedTransitionMachine.enterFuncs "s" = some (Demo.transitionThenOk "b") ∧
    (demo (Demo.transitionThenOk "b") nestedTransitionMachine 0).err = none ∧
    (Start demo nestedTransitionMachine "s" 0).err = none ∧
    (Start demo nestedTransitionMachine "s" 0).calls = [Call.enter "s", Call.exit "a"] ∧
    Call.exit "a" ∈ (Start demo nestedTransitionMachine "s" 0).calls := by
  refine ⟨rfl, rfl, rfl, rfl, rfl, ?_⟩
  decide

/-- C7 as amended (start success): on any machine, if no enter callback is
registered for `s` or the registered one returns no error, then `Start s`
returns no error and sets the current state to `s`; it calls the enter callback
of `s` exactly once when one is registered and calls nothing else itself: the
outside state is the one that callback left, the machine is the one it left
with the current state set to `s`, and any further callback (an exit callback,
say) is called from within that enter callback.  With a callback that makes no
call on the machine, no exit callback is called. -/
theorem Start_success {F W : Type} (cl : Closures F W) (f : FSM F) (s : String) (w : W)
    (hok : ∀ fn, f.enterFuncs s = some fn → (cl fn f w).err = none) :
    (Start cl f s w).err = none ∧
      (Start cl f s w).machine.currentState = s ∧
      (∀ fn, f.enterFuncs s = some fn →
        (Start cl f s w).machine = { (cl fn f w).machine with currentState := s } ∧
        (Start cl f s w).env = (cl fn f w).env ∧
        (Start cl f s w).calls = Call.enter s :: (cl fn f w).calls) ∧
      (f.enterFuncs s = none →
        (Start cl f s w).machine = { f with currentState := s } ∧
        (Start cl f s w).env = w ∧ (Start cl f s w).calls = []) ∧
      (∀ fn, f.enterFuncs s = some fn → (cl fn f w).calls = [] →
        (Start cl f s w).calls = [Call.enter s] ∧
        ∀ x, Call.exit x ∉ (Start cl f s w).calls) := by
  cases hE : f.enterFuncs s with
  | none =>
    rw [Start_of_none cl f s w hE]
    simp
  | some fn =>
    rw [Start_of_success cl f s w fn hE (hok fn hE)]
    refine ⟨rfl, rfl, ?_, ?_, ?_⟩
    · intro fn2 h2
      have h3 : fn = fn2 := Option.some.inj h2
      subst h3
      exact ⟨rfl, rfl, rfl⟩
    · intro h2
      cases h2
    · intro fn2 h2 hc
      have h3 : fn = fn2 := Option.some.inj h2
      subst h3
      simp [hc]

/-- An instance of the amended C7: re-starting a started machine with a counting
enter callback on `z`. -/
theorem Start_success_witness :
    (Start demo (OnEnter abMachine "z" Demo.countOk).1 "z" 5).err = none ∧
      (Start demo (OnEnter abMachine "z" Demo.countOk).1 "z" 5).machine.currentState = "z" ∧
      (Start demo (OnEnter abMachine "z" Demo.countOk).1 "z" 5).calls = [Call.enter "z"] ∧
      (Start demo (OnEnter abMachine "z" Demo.countOk).1 "z" 5).env = 6 ∧
      (∀ x, Call.exit x ∉ (Start demo (OnEnter abMachine "z" Demo.countOk).1 "z" 5).calls) :=
  have h := Start_success demo (OnEnter abMachine "z" Demo.countOk).1 "z" 5 (fun fn h => by
    have h3 : fn = Demo.countOk := (Option.some.inj h).symm
    subst h3
    rfl)
  ⟨h.1, h.2.1, (h.2.2.1 Demo.countOk rfl).2.2, (h.2.2.1 Demo.countOk rfl).2.1,
    (h.2.2.2.2 Demo.countOk rfl rfl).2⟩

theorem foldl_step_currentState_of_registration {F W : Type} (cl : Closures F W)
    (regs : List (Op F)) :
    ∀ r : Run F W, (∀ op ∈ regs, Op.isRegistration op = true) →
      (regs.foldl (Run.step cl) r).machine.currentState = r.machine.currentState := by
  induction regs with
  | nil => intro r _; rfl
  | cons op rest ih =>
    intro r h
    have hop : Op.isRegistration op = true := h op (List.mem_cons_self op rest)
    have hrest : ∀ o ∈ rest, Op.isRegistration o = true :=
      fun o ho => h o (List.mem_cons_of_mem op ho)
    rw [List.foldl_cons, ih (Run.step cl r op) hrest]
    cases op with
    | addTransition a b =>
      simp only [Run.step, Op.call, AddTransition]
      cases r.machine.transitionMap a <;> simp only [] <;> split <;> rfl
    | onEnter st fn => rfl
    | onExit st fn => rfl
    | start st => simp [Op.isRegistration] at hop
    | transition t => simp [Op.isRegistration] at hop

/-- C8 refuted as stated: on a new machine the enter callback of `s` calls
`f.Start("z")` and then returns the error `boom`; `Start "s"` returns `boom`,
but the current state is now `z`, not the one before the call. -/
theorem Start_failure_counterexample :
    restartStartMachine.currentState = "" ∧
    restartStartMachine.enterFuncs "s" = some (Demo.startThenFail "z" "boom") ∧
    (demo (Demo.startThenFail "z" "boom") restartStartMachine 0).err
      = some (errors.New "boom") ∧
    (Start demo restartStartMachine "s" 0).err = some (errors.New "boom") ∧
    (Start demo restartStartMachine "s" 0).machine.currentState = "z" ∧
    (Start demo restartStartMachine "s" 0).machine.currentState
      ≠ restartStartMachine.currentState := by
  refine ⟨rfl, rfl, rfl, rfl, rfl, ?_⟩
  decide

/-- C8 as amended (start failure): if the enter callback registered for `s` returns
the error `e`, then `Start s` returns exactly `e` and does not commit `s`: it
writes nothing, so the machine and the outside state are the ones the callback
left.  Hence the current state is the one before the call unless the callback
itself changed it: with a callback that leaves the current state alone, a
machine built from `NewFSM` by registrations only is left in the unstarted
sentinel `""`, and a machine that was in state `prev` stays in `prev`. -/
theorem Start_failure {F W : Type} (cl : Closures F W) (f : FSM F) (s : String) (fn : F)
    (e : Error) (w : W)
    (hreg : f.enterFuncs s = some fn) (hfail : (cl fn f w).err = some e) :
    (Start cl f s w).err = some e ∧
      (Start cl f s w).machine = (cl fn f w).machine ∧
      (Start cl f s w).env = (cl fn f w).env ∧
      (Start cl f s w).calls = Call.enter s :: (cl fn f w).calls ∧
      ((cl fn f w).machine = f → (Start cl f s w).machine = f) ∧
      ((cl fn f w).machine.currentState = f.currentState →
        (Start cl f s w).machine.currentState = f.currentState ∧
        (∀ (regs : List (Op F)) (w0 : W), (∀ op ∈ regs, Op.isRegistration op = true) →
          f = (runOps cl NewFSM w0 regs).machine → (Start cl f s w).machine.currentState = "") ∧
        (∀ prev, f.currentState = prev → (Start cl f s w).machine.currentState = prev)) := by
  rw [Start_of_error cl f s w fn e hreg hfail]
  refine ⟨rfl, rfl, rfl, rfl, fun h => h, ?_⟩
  intro hcur
  refine ⟨hcur, ?_, ?_⟩
  · intro regs w0 hregs hf
    show (cl fn f w).machine.currentState = ""
    rw [hcur, hf]
    exact foldl_step_currentState_of_registration cl regs _ hregs
  · intro prev hp
    show (cl fn f w).machine.currentState = prev
    rw [hcur, hp]

/-- An instance of the amended C8 on a fresh machine (left in `""`) and on a started
machine (left in `a`), with failing callbacks that leave the machine alone. -/
theorem Start_failure_witness :
    ((Start demo (OnEnter (NewFSM : FSM Demo) "s" (Demo.countFail "enter s failed")).1 "s" 0).err
        = some (errors.New "enter s failed") ∧
      (Start demo (OnEnter (NewFSM : FSM Demo) "s"
        (Demo.countFail "enter s failed")).1 "s" 0).machine.currentState = "") ∧
    ((Start demo enterFailMachine "b" 0).err = some (errors.New "enter b failed") ∧
      (Start demo enterFailMachine "b" 0).machine.currentState = "a") :=
  have h1 := Start_failure demo (OnEnter (NewFSM : FSM Demo) "s"
    (Demo.countFail "enter s failed")).1 "s"
    (Demo.countFail "enter s failed") (errors.New "enter s failed") 0 rfl rfl
  have h2 := Start_failure demo enterFailMachine "b" (Demo.countFail "enter b failed")
    (errors.New "enter b failed") 0 rfl rfl
  ⟨⟨h1.1, (h1.2.2.2.2.2 rfl).2.1 [Op.onEnter "s" (Demo.countFail "enter s failed")] 0
      (by simp [Op.isRegistration]) rfl⟩,
    ⟨h2.1, (h2.2.2.2.2.2 rfl).2.2 "a" rfl⟩⟩

/-! ## `AddTransition` -/

/-- What `AddTransition` does in one formula: nothing when `stateB` is already a
target of `stateA`, otherwise `stateB` is appended to the targets of `stateA`
(the empty list when `stateA` had no entry). -/
theorem AddTransition_eq {F : Type} (f : FSM F) (a b : String) :
    AddTransition f a b =
      if b ∈ (f.transitionMap a).getD [] then f
      else { f with transitionMap := f.transitionMap.set a ((f.transitionMap a).getD [] ++ [b]) } := by
  unfold AddTransition
  cases hT : f.transitionMap a with
  | none => simp [GoMap.set_self, GoMap.set_set, searchLoop]
  | some ts =>
    by_cases hm : b ∈ ts
    · simp [hT, (searchLoop_eq_true_iff ts b).2 hm, hm]
    · simp [hT, (searchLoop_eq_false_iff ts b).2 hm, hm]

theorem AddTransition_target_mem {F : Type} (f : FSM F) (a b : String) :
    b ∈ ((AddTransition f a b).transitionMap a).getD [] := by
  rw [AddTransition_eq]
  by_cases hm : b ∈ (f.transitionMap a).getD []
  · simp [hm]
  · simp [hm, GoMap.set_self]

theorem AddTransition_currentState {F : Type} (f : FSM F) (a b : String) :
    (AddTransition f a b).currentState = f.currentState := by
  rw [AddTransition_eq]
  split <;> rfl

theorem AddTransition_enterFuncs {F : Type} (f : FSM F) (a b : String) :
    (AddTransition f a b).enterFuncs = f.enterFuncs := by
  rw [AddTransition_eq]
  split <;> rfl

theorem AddTransition_exitFuncs {F : Type} (f : FSM F) (a b : String) :
    (AddTransition f a b).exitFuncs = f.exitFuncs := by
  rw [AddTransition_eq]
  split <;> rfl

theorem AddTransition_table_source {F : Type} (f : FSM F) (a b : String) :
    (AddTransition f a b).transitionMap a = some (insertNew ((f.transitionMap a).getD []) b) := by
  rw [AddTransition_eq]
  unfold insertNew
  by_cases hm : b ∈ (f.transitionMap a).getD []
  · simp only [hm, if_true]
    cases hT : f.transitionMap a with
    | none => simp [hT] at hm
    | some ts => simp
  · simp only [hm, if_false]
    exact GoMap.set_self _ _ _

theorem AddTransition_table_other {F : Type} (f : FSM F) (a b s : String) (h : s ≠ a) :
    (AddTransition f a b).transitionMap s = f.transitionMap s := by
  rw [AddTransition_eq]
  split
  · rfl
  · exact GoMap.set_of_ne _ _ _ _ h

theorem HasTransition_AddTransition_iff {F : Type} (f : FSM F) (a b s t : String) :
    HasTransition (AddTransition f a b) s t ↔ HasTransition f s t ∨ (s = a ∧ t = b) := by
  unfold HasTransition
  rw [AddTransition_eq]
  by_cases hm : b ∈ (f.transitionMap a).getD []
  · simp only [hm, if_true]
    constructor
    · intro h; exact Or.inl h
    · rintro (h | ⟨rfl, rfl⟩)
      · exact h
      · exact hm
  · simp only [hm, if_false]
    by_cases hsa : s = a
    · subst hsa
      simp [GoMap.set_self]
    · simp [GoMap.set_of_ne _ _ _ _ hsa, hsa]

/-- C9 (idempotent registration): calling `AddTransition a b` twice yields exactly
the machine that calling it once yields (same transition table, list order
included), so every subsequent sequence of calls behaves identically in both
cases. -/
theorem AddTransition_idempotent {F W : Type} (cl : Closures F W) (f : FSM F) (a b : String) :
    AddTransition (AddTransition f a b) a b = AddTransition f a b ∧
      (AddTransition (AddTransition f a b) a b).transitionMap
        = (AddTransition f a b).transitionMap ∧
      (∀ (w : W) (ops : List (Op F)),
        runOps cl (AddTransition (AddTransition f a b) a b) w ops
          = runOps cl (AddTransition f a b) w ops) := by
  have h : AddTransition (AddTransition f a b) a b = AddTransition f a b := by
    rw [AddTransition_eq (AddTransition f a b) a b]
    simp [AddTransition_target_mem f a b]
  exact ⟨h, by rw [h], fun w ops => by rw [h]⟩

/-! ## Invariants of the machine -/

/-- A property of machines that the effects of the methods keep is kept by every
change made through the methods. -/
theorem ByMethods.keeps {F : Type} (P : FSM F → Prop)
    (hadd : ∀ m a b, P m → P (AddTransition m a b))
    (henter : ∀ m s (fn : F), P m → P (OnEnter m s fn).1)
    (hexit : ∀ m s (fn : F), P m → P (OnExit m s fn).1)
    (hcur : ∀ (m : FSM F) s, P m → P { m with currentState := s })
    {m m1 : FSM F} (h : ByMethods m m1) : P m → P m1 := by
  induction h with
  | same => exact fun hp => hp
  | addTransition a b _ ih => exact fun hp => hadd _ a b (ih hp)
  | onEnter s fn _ ih => exact fun hp => henter _ s fn (ih hp)
  | onExit s fn _ ih => exact fun hp => hexit _ s fn (ih hp)
  | setCurrentState s _ ih => exact fun hp => hcur _ s (ih hp)

theorem afterExit_keeps {F W : Type} (cl : Closures F W) (P : FSM F → Prop)
    (hcl : ∀ fn m w, P m → P (cl fn m w).machine) (f : FSM F) (w : W) (h : P f) :
    P (afterExit cl f w).machine := by
  cases hX : f.exitFuncs f.currentState with
  | none => rw [afterExit_of_none cl f w hX]; exact h
  | some exitFun => rw [afterExit_of_some cl f w exitFun hX]; exact hcl exitFun f w h

theorem afterEnter_keeps {F W : Type} (cl : Closures F W) (P : FSM F → Prop)
    (hcl : ∀ fn m w, P m → P (cl fn m w).machine) (f : FSM F) (t : String) (w : W) (h : P f) :
    P (afterEnter cl f t w).machine := by
  have hx := afterExit_keeps cl P hcl f w h
  cases hE : (afterExit cl f w).machine.enterFuncs t with
  | none => rw [afterEnter_of_none cl f t w hE]; exact hx
  | some enterFun => rw [afterEnter_of_some cl f t w enterFun hE]; exact hcl enterFun _ _ hx

/-- The machine a `Transition` call leaves is the machine at the call, or the one
its exit callback left, or the one its enter callback left, or that last one
with the current state written. -/
theorem Transition_machine_cases {F W : Type} (cl : Closures F W) (f : FSM F) (t : String)
    (w : W) :
    ((Transition cl f t w).err ≠ none ∧
      ((Transition cl f t w).machine = f ∨
        (Transition cl f t w).machine = (afterExit cl f w).machine ∨
        (Transition cl f t w).machine = (afterEnter cl f t w).machine)) ∨
    ((Transition cl f t w).err = none ∧
      (Transition cl f t w).machine
        = { (afterEnter cl f t w).machine with currentState := t }) := by
  by_cases hv : HasTransition f f.currentState t
  · cases hx : (afterExit cl f w).err with
    | some e =>
      rw [Transition_of_exit_error cl f t w e hv hx]
      exact Or.inl ⟨by simp, Or.inr (Or.inl rfl)⟩
    | none =>
      cases hn : (afterEnter cl f t w).err with
      | some e =>
        rw [Transition_of_enter_error cl f t w e hv hx hn]
        exact Or.inl ⟨by simp, Or.inr (Or.inr rfl)⟩
      | none =>
        rw [Transition_of_success cl f t w hv hx hn]
        exact Or.inr ⟨rfl, rfl⟩
  · obtain ⟨hm, _, _, he⟩ := Transition_of_invalid cl f t w hv
    refine Or.inl ⟨?_, Or.inl hm⟩
    rcases he with h | h <;> rw [h] <;> simp

theorem Transition_keeps {F W : Type} (cl : Closures F W) (P : FSM F → Prop)
    (hcl : ∀ fn m w, P m → P (cl fn m w).machine)
    (hcur : ∀ (m : FSM F) s, P m → P { m with currentState := s })
    (f : FSM F) (t : String) (w : W) (h : P f) : P (Transition cl f t w).machine := by
  rcases Transition_machine_cases cl f t w with ⟨_, hm | hm | hm⟩ | ⟨_, hm⟩
  · rw [hm]; exact h
  · rw [hm]; exact afterExit_keeps cl P hcl f w h
  · rw [hm]; exact afterEnter_keeps cl P hcl f t w h
  · rw [hm]; exact hcur _ t (afterEnter_keeps cl P hcl f t w h)

/-- The machine a `Start` call leaves is the machine at the call with the current
state written, or the one its enter callback left, with the current state
written when the callback returned no error. -/
theorem Start_machine_cases {F W : Type} (cl : Closures F W) (f : FSM F) (s : String) (w : W) :
    (f.enterFuncs s = none ∧ (Start cl f s w).err = none ∧
      (Start cl f s w).machine = { f with currentState := s }) ∨
    (∃ fn, f.enterFuncs s = some fn ∧ (Start cl f s w).err ≠ none ∧
      (Start cl f s w).machine = (cl fn f w).machine) ∨
    (∃ fn, f.enterFuncs s = some fn ∧ (Start cl f s w).err = none ∧
      (Start cl f s w).machine = { (cl fn f w).machine with currentState := s }) := by
  cases hE : f.enterFuncs s with
  | none =>
    rw [Start_of_none cl f s w hE]
    exact Or.inl ⟨rfl, rfl, rfl⟩
  | some fn =>
    cases he : (cl fn f w).err with
    | some e =>
      rw [Start_of_error cl f s w fn e hE he]
      exact Or.inr (Or.inl ⟨fn, rfl, by simp, rfl⟩)
    | none =>
      rw [Start_of_success cl f s w fn hE he]
      exact Or.inr (Or.inr ⟨fn, rfl, rfl, rfl⟩)

theorem Start_keeps {F W : Type} (cl : Closures F W) (P : FSM F → Prop)
    (hcl : ∀ fn m w, P m → P (cl fn m w).machine)
    (hcur : ∀ (m : FSM F) s, P m → P { m with currentState := s })
    (f : FSM F) (s : String) (w : W) (h : P f) : P (Start cl f s w).machine := by
  rcases Start_machine_cases cl f s w with ⟨_, _, hm⟩ | ⟨fn, _, _, hm⟩ | ⟨fn, _, _, hm⟩
  · rw [hm]; exact hcur _ s h
  · rw [hm]; exact hcl fn f w h
  · rw [hm]; exact hcur _ s (hcl fn f w h)

/-- A property of machines that the effects of the methods keep is kept by every
client call, when the callbacks change the machine through its methods only. -/
theorem call_keeps {F W : Type} (cl : Closures F W) (P : FSM F → Prop)
    (hadd : ∀ m a b, P m → P (AddTransition m a b))
    (henter : ∀ m s (fn : F), P m → P (OnEnter m s fn).1)
    (hexit : ∀ m s (fn : F), P m → P (OnExit m s fn).1)
    (hcur : ∀ (m : FSM F) s, P m → P { m with currentState := s })
    (hcl : ∀ fn m w, ByMethods m (cl fn m w).machine)
    (op : Op F) (f : FSM F) (w : W) (h : P f) : P (op.call cl f w).machine := by
  have hk : ∀ fn m w, P m → P (cl fn m w).machine :=
    fun fn m w hp => ByMethods.keeps P hadd henter hexit hcur (hcl fn m w) hp
  cases op with
  | addTransition a b => exact hadd f a b h
  | onEnter st fn => exact henter f st fn h
  | onExit st fn => exact hexit f st fn h
  | start st => exact Start_keeps cl P hk hcur f st w h
  | transition t => exact Transition_keeps cl P hk hcur f t w h

theorem foldl_step_invariant {F W : Type} (cl : Closures F W) (P : FSM F → Prop)
    (hstep : ∀ (op : Op F) (f : FSM F) (w : W), P f → P (op.call cl f w).machine)
    (ops : List (Op F)) :
    ∀ r : Run F W, P r.machine → P (ops.foldl (Run.step cl) r).machine := by
  induction ops with
  | nil => intro r h; exact h
  | cons op rest ih =>
    intro r h
    rw [List.foldl_cons]
    exact ih (Run.step cl r op) (hstep op r.machine r.env h)

theorem foldl_step_invariant_of {F W : Type} (cl : Closures F W) (Q : Op F → Prop)
    (P : FSM F → Prop)
    (hstep : ∀ (op : Op F) (f : FSM F) (w : W), Q op → P f → P (op.call cl f w).machine)
    (ops : List (Op F)) :
    (∀ op ∈ ops, Q op) → ∀ r : Run F W, P r.machine →
      P (ops.foldl (Run.step cl) r).machine := by
  induction ops with
  | nil => intro _ r h; exact h
  | cons op rest ih =>
    intro hq r h
    rw [List.foldl_cons]
    exact ih (fun o ho => hq o (List.mem_cons_of_mem op ho)) (Run.step cl r op)
      (hstep op r.machine r.env (hq op (List.mem_cons_self op rest)) h)

theorem NodupTable_NewFSM {F : Type} : NodupTable (NewFSM : FSM F) := by
  intro s ts h
  simp [NewFSM, GoMap.empty] at h

theorem NodupTable_AddTransition {F : Type} (f : FSM F) (a b : String) (h : NodupTable f) :
    NodupTable (AddTransition f a b) := by
  rw [AddTransition_eq]
  by_cases hm : b ∈ (f.transitionMap a).getD []
  · simpa [hm] using h
  · intro s ts hs
    simp only [hm, if_false] at hs
    by_cases hsa : s = a
    · subst hsa
      rw [GoMap.set_self] at hs
      have hts : ts = (f.transitionMap s).getD [] ++ [b] := (Option.some.inj hs).symm
      subst hts
      have hold : ((f.transitionMap s).getD []).Nodup := by
        cases hT : f.transitionMap s with
        | none => simp
        | some l => simpa using h s l hT
      exact List.Nodup.append hold (List.nodup_singleton b) (by simpa using hm)
    · rw [GoMap.set_of_ne _ _ _ _ hsa] at hs
      exact h s ts hs

theorem NodupTable_runOps {F W : Type} (cl : Closures F W)
    (hcl : ∀ fn m w, ByMethods m (cl fn m w).machine) (ops : List (Op F)) (w0 : W) :
    NodupTable (runOps cl (NewFSM : FSM F) w0 ops).machine :=
  foldl_step_invariant cl NodupTable
    (call_keeps cl NodupTable NodupTable_AddTransition (fun _ _ _ h => h) (fun _ _ _ h => h)
      (fun _ _ h => h) hcl)
    ops _ NodupTable_NewFSM

/-- The closures of the examples change the machine through its methods only. -/
theorem demoPlain_machine (fn : Demo) (m : FSM Demo) (n : Nat) :
    (demoPlain fn m n).machine = m := by
  cases fn <;> rfl

theorem demo_byMethods (fn : Demo) (m : FSM Demo) (n : Nat) :
    ByMethods m (demo fn m n).machine := by
  cases fn with
  | countOk => exact ByMethods.same m
  | countFail text => exact ByMethods.same m
  | startThenFail state text =>
    exact Start_keeps demoPlain (fun x => ByMethods m x)
      (fun fn x w h => by rw [demoPlain_machine]; exact h)
      (fun x s h => ByMethods.setCurrentState s h) m state n (ByMethods.same m)
  | startThenOk state =>
    exact Start_keeps demoPlain (fun x => ByMethods m x)
      (fun fn x w h => by rw [demoPlain_machine]; exact h)
      (fun x s h => ByMethods.setCurrentState s h) m state n (ByMethods.same m)
  | transitionThenOk state =>
    exact Transition_keeps demoPlain (fun x => ByMethods m x)
      (fun fn x w h => by rw [demoPlain_machine]; exact h)
      (fun x s h => ByMethods.setCurrentState s h) m state n (ByMethods.same m)
  | addTransitionThenOk a b => exact ByMethods.addTransition a b (ByMethods.same m)
  | onEnterFailThenOk state text =>
    exact ByMethods.onEnter state (Demo.countFail text) (ByMethods.same m)

theorem NodupTable_of_byMethods {F : Type} (m : FSM F) (h : ByMethods (NewFSM : FSM F) m) :
    NodupTable m :=
  ByMethods.keeps NodupTable NodupTable_AddTransition (fun _ _ _ hp => hp) (fun _ _ _ hp => hp)
    (fun _ _ hp => hp) h NodupTable_NewFSM

theorem count_after_AddTransition {F : Type} (m : FSM F) (a b : String) (h : NodupTable m) :
    ∃ ts, (AddTransition m a b).transitionMap a = some ts ∧ ts.count b = 1 := by
  have hinv := NodupTable_AddTransition m a b h
  have hmem := AddTransition_target_mem m a b
  cases hT : (AddTransition m a b).transitionMap a with
  | none => simp [hT] at hmem
  | some ts =>
    rw [hT] at hmem
    exact ⟨ts, rfl, List.count_eq_one_of_mem (hinv a ts hT) (by simpa using hmem)⟩

/-- C10 (no duplication): in every machine reachable from `NewFSM` by any sequence
of `AddTransition`, `OnEnter`, `OnExit`, `Start` and `Transition` calls, every
source's target list is duplicate-free, and after a further `AddTransition a b`
the target `b` occurs exactly once in the target list of `a`.  This holds of
every machine that changes made through the methods lead to from `NewFSM`, and
so of the machine after any sequence of client calls, whose callbacks (the
fields of the machine are not exported) change it through its methods only. -/
theorem no_duplication {F W : Type} (cl : Closures F W) :
    (∀ m : FSM F, ByMethods (NewFSM : FSM F) m →
      (∀ s ts, m.transitionMap s = some ts → ts.Nodup) ∧
      (∀ a b, ∃ ts, (AddTransition m a b).transitionMap a = some ts ∧ ts.count b = 1)) ∧
    ((∀ fn m w, ByMethods m (cl fn m w).machine) → ∀ (ops : List (Op F)) (w0 : W),
      (∀ s ts, (runOps cl (NewFSM : FSM F) w0 ops).machine.transitionMap s = some ts →
        ts.Nodup) ∧
      (∀ a b, ∃ ts,
        (AddTransition (runOps cl (NewFSM : FSM F) w0 ops).machine a b).transitionMap a
          = some ts ∧
        ts.count b = 1)) := by
  constructor
  · intro m hm
    exact ⟨NodupTable_of_byMethods m hm,
      fun a b => count_after_AddTransition m a b (NodupTable_of_byMethods m hm)⟩
  · intro hcl ops w0
    exact ⟨NodupTable_runOps cl hcl ops w0,
      fun a b => count_after_AddTransition _ a b (NodupTable_runOps cl hcl ops w0)⟩

/-- An instance of C10: a run in which a callback registers a transition that the
client registers too. -/
theorem no_duplication_witness :
    (runOps demo (NewFSM : FSM Demo) 0
      [Op.addTransition "a" "b", Op.onExit "a" (Demo.addTransitionThenOk "a" "c"),
        Op.start "a", Op.transition "b", Op.addTransition "a" "c",
        Op.addTransition "a" "b"]).machine.transitionMap "a" = some ["b", "c"] ∧
    (∀ s ts, (runOps demo (NewFSM : FSM Demo) 0
      [Op.addTransition "a" "b", Op.onExit "a" (Demo.addTransitionThenOk "a" "c"),
        Op.start "a", Op.transition "b", Op.addTransition "a" "c",
        Op.addTransition "a" "b"]).machine.transitionMap s = some ts → ts.Nodup) :=
  ⟨rfl, ((no_duplication demo).2 demo_byMethods
      [Op.addTransition "a" "b", Op.onExit "a" (Demo.addTransitionThenOk "a" "c"),
        Op.start "a", Op.transition "b", Op.addTransition "a" "c",
        Op.addTransition "a" "b"] 0).1⟩

/-! ## The table under the operations -/

/-- C11 refuted as stated: the exit callback of `a` calls `f.AddTransition("a", "c")`,
so the table after `Transition "b"` is not the table before it. -/
theorem table_append_only_counterexample :
    addingMachine.transitionMap "a" = some ["b"] ∧
    (Transition demo addingMachine "b" 0).err = none ∧
    (Transition demo addingMachine "b" 0).machine.transitionMap "a" = some ["b", "c"] ∧
    (Transition demo addingMachine "b" 0).machine.transitionMap ≠ addingMachine.transitionMap := by
  refine ⟨rfl, rfl, rfl, ?_⟩
  intro h
  have h2 : (Transition demo addingMachine "b" 0).machine.transitionMap "a"
      = addingMachine.transitionMap "a" := by rw [h]
  exact absurd h2 (by decide)

/-- C11 as amended (append-only table): no operation removes a transition.  With
callbacks that change the machine through its methods only, whatever call a
client makes, every (source, target) pair in the table before the call is in it
afterwards; `AddTransition a b` adds no pair other than `(a, b)` (and does add
that one); `OnEnter` and `OnExit` leave the table unchanged; `Start` and
`Transition` write nothing into the table themselves: the table they leave is
the one at the call or the one a callback of theirs left, so it is unchanged
when the callbacks leave it alone. -/
theorem table_append_only {F W : Type} (cl : Closures F W) :
    ((∀ fn m w, ByMethods m (cl fn m w).machine) →
      ∀ (op : Op F) (f : FSM F) (w : W) (s t : String),
        HasTransition f s t → HasTransition (op.call cl f w).machine s t) ∧
    (∀ (f : FSM F) (a b s t : String),
      HasTransition (AddTransition f a b) s t ↔ HasTransition f s t ∨ (s = a ∧ t = b)) ∧
    (∀ (f : FSM F) (a b s : String), s ≠ a →
      (AddTransition f a b).transitionMap s = f.transitionMap s) ∧
    (∀ (f : FSM F) (state : String) (fn : F),
      (OnEnter f state fn).1.transitionMap = f.transitionMap) ∧
    (∀ (f : FSM F) (state : String) (fn : F),
      (OnExit f state fn).1.transitionMap = f.transitionMap) ∧
    (∀ (f : FSM F) (s : String) (w : W),
      (Start cl f s w).machine.transitionMap = f.transitionMap ∨
      ∃ fn, f.enterFuncs s = some fn ∧
        (Start cl f s w).machine.transitionMap = (cl fn f w).machine.transitionMap) ∧
    (∀ (f : FSM F) (t : String) (w : W),
      (Transition cl f t w).machine.transitionMap = f.transitionMap ∨
      (Transition cl f t w).machine.transitionMap = (afterExit cl f w).machine.transitionMap ∨
      (Transition cl f t w).machine.transitionMap
        = (afterEnter cl f t w).machine.transitionMap) ∧
    ((∀ fn m w, (cl fn m w).machine.transitionMap = m.transitionMap) →
      ∀ (f : FSM F) (x : String) (w : W),
        (Start cl f x w).machine.transitionMap = f.transitionMap ∧
        (Transition cl f x w).machine.transitionMap = f.transitionMap) := by
  refine ⟨?_, HasTransition_AddTransition_iff, AddTransition_table_other,
    fun _ _ _ => rfl, fun _ _ _ => rfl, ?_, ?_, ?_⟩
  · intro hcl op f w s t h
    exact call_keeps cl (fun m => HasTransition m s t)
      (fun m a b hp => (HasTransition_AddTransition_iff m a b s t).2 (Or.inl hp))
      (fun _ _ _ hp => hp) (fun _ _ _ hp => hp) (fun _ _ hp => hp) hcl op f w h
  · intro f s w
    rcases Start_machine_cases cl f s w with ⟨_, _, hm⟩ | ⟨fn, hE, _, hm⟩ | ⟨fn, hE, _, hm⟩
    · exact Or.inl (by rw [hm])
    · exact Or.inr ⟨fn, hE, by rw [hm]⟩
    · exact Or.inr ⟨fn, hE, by rw [hm]⟩
  · intro f t w
    rcases Transition_machine_cases cl f t w with ⟨_, hm | hm | hm⟩ | ⟨_, hm⟩
    · exact Or.inl (by rw [hm])
    · exact Or.inr (Or.inl (by rw [hm]))
    · exact Or.inr (Or.inr (by rw [hm]))
    · exact Or.inr (Or.inr (by rw [hm]))
  · intro hcl f x w
    exact ⟨Start_keeps cl (fun m => m.transitionMap = f.transitionMap)
        (fun fn m w' hp => (hcl fn m w').trans hp) (fun _ _ hp => hp) f x w rfl,
      Transition_keeps cl (fun m => m.transitionMap = f.transitionMap)
        (fun fn m w' hp => (hcl fn m w').trans hp) (fun _ _ hp => hp) f x w rfl⟩

/-- An instance of the amended C11: the pair `a → b` survives a transition whose
exit callback registers `a → c`, and a further registration adds only its own
pair. -/
theorem table_append_only_witness :
    HasTransition (Transition demo addingMachine "b" 0).machine "a" "b" ∧
    HasTransition (AddTransition abMachine "a" "c") "a" "b" ∧
    HasTransition (AddTransition abMachine "a" "c") "a" "c" ∧
    ¬ HasTransition (AddTransition abMachine "a" "c") "b" "c" :=
  ⟨(table_append_only demo).1 demo_byMethods (Op.transition "b") addingMachine 0 "a" "b"
      (by decide),
    ((table_append_only demo).2.1 abMachine "a" "c" "a" "b").2 (Or.inl (by decide)),
    ((table_append_only demo).2.1 abMachine "a" "c" "a" "c").2 (Or.inr ⟨rfl, rfl⟩),
    fun h => (((table_append_only demo).2.1 abMachine "a" "c" "b" "c").1 h).elim
      (fun h1 => absurd h1 (by decide)) (fun h2 => absurd h2.1 (by decide))⟩

/-! ## The current state under the operations -/

/-- C17 refuted as stated: the exit callback of `a` calls `f.Start("z")` and then
fails; `Transition "b"` returns an error and the current state has changed from
`a` to `z`. -/
theorem currentState_frame_counterexample :
    restartExitMachine.currentState = "a" ∧
    (Transition demo restartExitMachine "b" 0).err ≠ none ∧
    (Transition demo restartExitMachine "b" 0).machine.currentState = "z" ∧
    (Transition demo restartExitMachine "b" 0).machine.currentState
      ≠ restartExitMachine.currentState := by
  refine ⟨rfl, ?_, rfl, ?_⟩ <;> decide

/-- C17 as amended (current-state frame): the package writes the current state only
in `Start` and in a `Transition` that returns no error.  `AddTransition`,
`OnEnter` and `OnExit` never change it, and a `Transition` call that returns an
error writes nothing: the machine it leaves is the one at the call, or the one
its exit callback left, or the one its enter callback left.  So, with callbacks
that do not change the current state, every `Transition` that returns an error
leaves it equal to its value before the call, and a call that changes it is a
`Start` or a `Transition` that returned no error and set it to its argument. -/
theorem currentState_frame {F W : Type} (cl : Closures F W) :
    (∀ (f : FSM F) (a b : String), (AddTransition f a b).currentState = f.currentState) ∧
    (∀ (f : FSM F) (state : String) (fn : F),
      (OnEnter f state fn).1.currentState = f.currentState) ∧
    (∀ (f : FSM F) (state : String) (fn : F),
      (OnExit f state fn).1.currentState = f.currentState) ∧
    (∀ (f : FSM F) (t : String) (w : W), (Transition cl f t w).err ≠ none →
      (Transition cl f t w).machine = f ∨
      (Transition cl f t w).machine = (afterExit cl f w).machine ∨
      (Transition cl f t w).machine = (afterEnter cl f t w).machine) ∧
    ((∀ fn m w, (cl fn m w).machine.currentState = m.currentState) →
      (∀ (f : FSM F) (t : String) (w : W), (Transition cl f t w).err ≠ none →
        (Transition cl f t w).machine.currentState = f.currentState) ∧
      (∀ (op : Op F) (f : FSM F) (w : W),
        (op.call cl f w).machine.currentState ≠ f.currentState →
        (op.call cl f w).err = none ∧
        ((∃ s, op = Op.start s ∧ (op.call cl f w).machine.currentState = s) ∨
         (∃ t, op = Op.transition t ∧ (op.call cl f w).machine.currentState = t)))) := by
  have herr : ∀ (f : FSM F) (t : String) (w : W), (Transition cl f t w).err ≠ none →
      (Transition cl f t w).machine = f ∨
      (Transition cl f t w).machine = (afterExit cl f w).machine ∨
      (Transition cl f t w).machine = (afterEnter cl f t w).machine := by
    intro f t w h
    rcases Transition_machine_cases cl f t w with ⟨_, hm⟩ | ⟨he, _⟩
    · exact hm
    · exact absurd he h
  refine ⟨AddTransition_currentState, fun _ _ _ => rfl, fun _ _ _ => rfl, herr, ?_⟩
  intro hcl
  have hx : ∀ (f : FSM F) (w : W), (afterExit cl f w).machine.currentState = f.currentState :=
    fun f w => afterExit_keeps cl (fun m => m.currentState = f.currentState)
      (fun fn m w' hp => (hcl fn m w').trans hp) f w rfl
  have hn : ∀ (f : FSM F) (t : String) (w : W),
      (afterEnter cl f t w).machine.currentState = f.currentState :=
    fun f t w => afterEnter_keeps cl (fun m => m.currentState = f.currentState)
      (fun fn m w' hp => (hcl fn m w').trans hp) f t w rfl
  have htr : ∀ (f : FSM F) (t : String) (w : W), (Transition cl f t w).err ≠ none →
      (Transition cl f t w).machine.currentState = f.currentState := by
    intro f t w h
    rcases herr f t w h with hm | hm | hm
    · rw [hm]
    · rw [hm]; exact hx f w
    · rw [hm]; exact hn f t w
  refine ⟨htr, ?_⟩
  intro op f w hne
  cases op with
  | addTransition a b => exact absurd (AddTransition_currentState f a b) hne
  | onEnter st fn => exact absurd rfl hne
  | onExit st fn => exact absurd rfl hne
  | start st =>
    rcases Start_machine_cases cl f st w with ⟨_, he, hm⟩ | ⟨fn, _, _, hm⟩ | ⟨fn, _, he, hm⟩
    · exact ⟨he, Or.inl ⟨st, rfl, by show (Start cl f st w).machine.currentState = st; rw [hm]⟩⟩
    · exfalso
      apply hne
      show (Start cl f st w).machine.currentState = f.currentState
      rw [hm]
      exact hcl fn f w
    · exact ⟨he, Or.inl ⟨st, rfl, by show (Start cl f st w).machine.currentState = st; rw [hm]⟩⟩
  | transition t =>
    have he : (Transition cl f t w).err = none := by
      by_contra hc
      exact hne (htr f t w hc)
    exact ⟨he, Or.inr ⟨t, rfl, Transition_currentState_of_success cl f t w he⟩⟩

/-- An instance of the amended C17: with callbacks that leave the machine alone, a
transition that fails validation, one whose exit callback fails and one whose
enter callback fails all leave the machine in `a`. -/
theorem currentState_frame_witness :
    (Transition demoPlain abMachine "c" 0).machine.currentState = "a" ∧
    (Transition demoPlain exitFailMachine "b" 0).machine.currentState = "a" ∧
    (Transition demoPlain enterFailMachine "b" 0).machine.currentState = "a" :=
  have h := ((currentState_frame demoPlain).2.2.2.2
    (fun fn m w => by rw [demoPlain_machine])).1
  ⟨h abMachine "c" 0 (by decide), h exitFailMachine "b" 0 (by decide),
    h enterFailMachine "b" 0 (by decide)⟩

/-! ## Registration of callbacks -/

/-- C15 refuted as stated: an exit callback on `a` and an enter callback on `b` that
fail with the same error make `Transition` return the same error, although the
last callback called (the one that failed) differs; so no function of the
returned error tells which callback, or which state, failed. -/
theorem callback_context_counterexample :
    (Transition demo boomExitMachine "b" 0).calls = [Call.exit "a"] ∧
    (Transition demo boomEnterMachine "b" 0).calls = [Call.enter "b"] ∧
    (Transition demo boomExitMachine "b" 0).err = some (errors.New "boom") ∧
    (Transition demo boomEnterMachine "b" 0).err = some (errors.New "boom") ∧
    ¬ ∃ context : Error → Call, ∀ (f : FSM Demo) (t : String) (w : Nat) (e : Error),
        (Transition demo f t w).err = some e →
        ∀ c, (Transition demo f t w).calls.getLast? = some c → context e = c := by
  refine ⟨rfl, rfl, rfl, rfl, ?_⟩
  rintro ⟨context, h⟩
  have h1 := h boomExitMachine "b" 0 (errors.New "boom") rfl (Call.exit "a") rfl
  have h2 := h boomEnterMachine "b" 0 (errors.New "boom") rfl (Call.enter "b") rfl
  rw [h1] at h2
  cases h2

/-- C15 as amended: when the exit callback of the current state fails during a
`Transition` to a registered target, `Transition` returns exactly the error that
callback returned; when the exit phase passes and the enter callback of the
target fails, `Transition` returns exactly the error that callback returned.
The error is passed on unchanged and nothing is added to it, so equal callback
errors give equal returned errors, whichever callback failed.  Conversely every
error `Transition` returns is one of the two validation errors or the error of
one of these two callbacks. -/
theorem Transition_error_unchanged {F W : Type} (cl : Closures F W) (f : FSM F) (t : String)
    (w : W) (hv : HasTransition f f.currentState t) :
    (∀ exitFun e, f.exitFuncs f.currentState = some exitFun → (cl exitFun f w).err = some e →
      (Transition cl f t w).err = some e) ∧
    (∀ enterFun e, (afterExit cl f w).err = none →
      (afterExit cl f w).machine.enterFuncs t = some enterFun →
      (cl enterFun (afterExit cl f w).machine (afterExit cl f w).env).err = some e →
      (Transition cl f t w).err = some e) ∧
    (∀ e, (Transition cl f t w).err = some e →
      (∃ exitFun, f.exitFuncs f.currentState = some exitFun ∧ (cl exitFun f w).err = some e) ∨
      (∃ enterFun, (afterExit cl f w).machine.enterFuncs t = some enterFun ∧
        (cl enterFun (afterExit cl f w).machine (afterExit cl f w).env).err = some e)) := by
  refine ⟨?_, ?_, ?_⟩
  · intro exitFun e hX he
    have hx : (afterExit cl f w).err = some e := by
      rw [afterExit_of_some cl f w exitFun hX]; exact he
    rw [Transition_of_exit_error cl f t w e hv hx]
  · intro enterFun e hx hE he
    have hn : (afterEnter cl f t w).err = some e := by
      rw [afterEnter_of_some cl f t w enterFun hE]; exact he
    rw [Transition_of_enter_error cl f t w e hv hx hn]
  · intro e h
    cases hx : (afterExit cl f w).err with
    | some e1 =>
      rw [Transition_of_exit_error cl f t w e1 hv hx] at h
      have he : e1 = e := Option.some.inj h
      subst he
      cases hX : f.exitFuncs f.currentState with
      | none => rw [afterExit_of_none cl f w hX] at hx; cases hx
      | some exitFun =>
        rw [afterExit_of_some cl f w exitFun hX] at hx
        exact Or.inl ⟨exitFun, rfl, hx⟩
    | none =>
      cases hn : (afterEnter cl f t w).err with
      | some e1 =>
        rw [Transition_of_enter_error cl f t w e1 hv hx hn] at h
        have he : e1 = e := Option.some.inj h
        subst he
        cases hE : (afterExit cl f w).machine.enterFuncs t with
        | none => rw [afterEnter_of_none cl f t w hE] at hn; cases hn
        | some enterFun =>
          rw [afterEnter_of_some cl f t w enterFun hE] at hn
          exact Or.inr ⟨enterFun, rfl, hn⟩
      | none =>
        rw [Transition_of_success cl f t w hv hx hn] at h
        cases h

/-- An instance of the amended C15: the error of the failing exit callback and the
error of the failing enter callback both come back as they are. -/
theorem Transition_error_unchanged_witness :
    (Transition demo boomExitMachine "b" 0).err = some (errors.New "boom") ∧
    (Transition demo boomEnterMachine "b" 0).err = some (errors.New "boom") :=
  ⟨(Transition_error_unchanged demo boomExitMachine "b" 0 (by decide)).1
      (Demo.countFail "boom") (errors.New "boom") rfl rfl,
    (Transition_error_unchanged demo boomEnterMachine "b" 0 (by decide)).2.1
      (Demo.countFail "boom") (errors.New "boom") rfl rfl rfl⟩

/-! ## Terminal states -/

theorem foldl_step_terminal {F W : Type} (cl : Closures F W) (f : FSM F) (w : W)
    (hno : ∀ t, ¬ HasTransition f f.currentState t) (targets : List String) :
    ∀ (calls : List Call) (results : List (Option Error)),
      (targets.map Op.transition).foldl (Run.step cl) ⟨f, w, calls, results⟩
        = ⟨f, w, calls, results ++ targets.map (fun t => (Transition cl f t w).err)⟩ := by
  induction targets with
  | nil => intro calls results; simp
  | cons t rest ih =>
    intro calls results
    obtain ⟨hm, he, hc, _⟩ := Transition_of_invalid cl f t w (hno t)
    have hstep : Run.step cl ⟨f, w, calls, results⟩ (Op.transition t)
        = ⟨f, w, calls, results ++ [(Transition cl f t w).err]⟩ := by
      simp [Run.step, Op.call, hm, he, hc]
    rw [List.map_cons, List.foldl_cons, hstep, ih]
    simp

/-- C16 (terminal states): once the current state `s` has no outgoing transition
registered, every `Transition` call of any finite sequence of such calls fails
validation (with one of the two validation errors), no callback is called, the
outside state is untouched and the machine, so the current state `s`, stays as
it was. -/
theorem terminal_state {F W : Type} (cl : Closures F W) (f : FSM F) (s : String)
    (targets : List String) (w : W)
    (hs : f.currentState = s) (hno : ∀ t, ¬ HasTransition f s t) :
    (runOps cl f w (targets.map Op.transition)).machine = f ∧
      (runOps cl f w (targets.map Op.transition)).machine.currentState = s ∧
      (runOps cl f w (targets.map Op.transition)).env = w ∧
      (runOps cl f w (targets.map Op.transition)).calls = [] ∧
      (runOps cl f w (targets.map Op.transition)).results
        = targets.map (fun t => (Transition cl f t w).err) ∧
      (∀ r ∈ (runOps cl f w (targets.map Op.transition)).results, r ≠ none) ∧
      (∀ t, ((Transition cl f t w).err
          = some (errors.New ("Could not transition to " ++ t ++ ". State does not exist")) ∨
        (Transition cl f t w).err
          = some (errors.New ("Invalid transition from " ++ s ++ " to " ++ t))) ∧
        (Transition cl f t w).calls = [] ∧ (Transition cl f t w).machine = f) := by
  subst hs
  have hrun := foldl_step_terminal cl f w hno targets [] []
  have hall : ∀ t, ((Transition cl f t w).err
          = some (errors.New ("Could not transition to " ++ t ++ ". State does not exist")) ∨
        (Transition cl f t w).err
          = some (errors.New ("Invalid transition from " ++ f.currentState ++ " to " ++ t))) ∧
        (Transition cl f t w).calls = [] ∧ (Transition cl f t w).machine = f := by
    intro t
    obtain ⟨hm, _, hc, he⟩ := Transition_of_invalid cl f t w (hno t)
    exact ⟨he, hc, hm⟩
  unfold runOps
  rw [hrun]
  refine ⟨rfl, rfl, rfl, rfl, by simp, ?_, hall⟩
  intro r hr
  simp only [List.nil_append, List.mem_map] at hr
  obtain ⟨t, _, rfl⟩ := hr
  rcases (hall t).1 with h | h <;> rw [h] <;> simp

/-- An instance of terminal states: in the machine `a → b`, once in `b` every
transition fails and the machine stays in `b`. -/
theorem terminal_state_witness :
    (runOps demo (Transition demo abMachine "b" 0).machine 0
        [Op.transition "a", Op.transition "b", Op.transition "c"]).machine.currentState = "b" ∧
    (runOps demo (Transition demo abMachine "b" 0).machine 0
        [Op.transition "a", Op.transition "b", Op.transition "c"]).calls = [] ∧
    (∀ r ∈ (runOps demo (Transition demo abMachine "b" 0).machine 0
        [Op.transition "a", Op.transition "b", Op.transition "c"]).results, r ≠ none) :=
  have h := terminal_state demo (Transition demo abMachine "b" 0).machine "b" ["a", "b", "c"] 0
    rfl
    (fun t ht => by
      have h2 : t ∈ ([] : List String) := ht
      cases h2)
  ⟨h.2.1, h.2.2.2.1, h.2.2.2.2.2.1⟩

/-! ## Insertion order -/

theorem foldl_insertNew_eq (xs : List String) :
    ∀ acc : List String,
      xs.foldl insertNew acc = acc ++ (dropLaterRepeats xs).filter (fun y => decide (y ∉ acc)) := by
  induction xs with
  | nil => intro acc; simp [dropLaterRepeats]
  | cons x rest ih =>
    intro acc
    rw [List.foldl_cons, ih]
    by_cases hx : x ∈ acc
    · have h1 : insertNew acc x = acc := by simp [insertNew, hx]
      rw [h1]
      congr 1
      simp only [dropLaterRepeats, List.filter_cons, hx, not_true_eq_false, decide_False,
        Bool.false_eq_true, if_false, List.filter_filter]
      apply List.filter_congr
      intro y _
      by_cases hy : y ∈ acc
      · simp [hy]
      · have hne : y ≠ x := fun e => hy (e ▸ hx)
        simp [hy, hne]
    · have h1 : insertNew acc x = acc ++ [x] := by simp [insertNew, hx]
      rw [h1]
      simp only [dropLaterRepeats, List.filter_cons, hx, not_false_eq_true, decide_True,
        if_true, List.filter_filter, List.append_assoc, List.singleton_append]
      congr 2
      apply List.filter_congr
      intro y _
      by_cases hy : y ∈ acc
      · simp [hy]
      · by_cases hyx : y = x
        · simp [hyx]
        · simp [hy, hyx]

theorem foldl_insertNew_nil (xs : List String) :
    xs.foldl insertNew [] = dropLaterRepeats xs := by
  rw [foldl_insertNew_eq]
  simp

/-- The table after a run in which only `AddTransition` calls of the client change
the table. -/
theorem foldl_step_table {F W : Type} (cl : Closures F W) (a : String) (ops : List (Op F)) :
    (∀ op ∈ ops, (∀ x y, op ≠ Op.addTransition x y) →
      ∀ (f : FSM F) (w : W), (op.call cl f w).machine.transitionMap = f.transitionMap) →
    ∀ r : Run F W,
      (ops.foldl (Run.step cl) r).machine.transitionMap a =
        if addedTargets a ops = [] then r.machine.transitionMap a
        else some ((addedTargets a ops).foldl insertNew ((r.machine.transitionMap a).getD [])) := by
  induction ops with
  | nil => intro _ r; simp [addedTargets]
  | cons op rest ih =>
    intro hframe r
    have hrest := ih (fun o ho => hframe o (List.mem_cons_of_mem op ho))
    have hop := hframe op (List.mem_cons_self op rest)
    rw [List.foldl_cons, hrest]
    cases op with
    | addTransition x y =>
      by_cases hxa : x = a
      · subst hxa
        have hstep : (Run.step cl r (Op.addTransition x y)).machine.transitionMap x
            = some (insertNew ((r.machine.transitionMap x).getD []) y) :=
          AddTransition_table_source r.machine x y
        rw [hstep]
        simp only [addedTargets, if_true, List.foldl_cons, Option.getD_some]
        by_cases hrest2 : addedTargets x rest = []
        · simp [hrest2]
        · simp [hrest2]
      · have hstep : (Run.step cl r (Op.addTransition x y)).machine.transitionMap a
            = r.machine.transitionMap a :=
          AddTransition_table_other r.machine x y a (fun e => hxa e.symm)
        rw [hstep]
        simp [addedTargets, hxa]
    | onEnter st fn =>
      have hstep : (Run.step cl r (Op.onEnter st fn)).machine.transitionMap
          = r.machine.transitionMap := rfl
      rw [hstep]
      simp [addedTargets]
    | onExit st fn =>
      have hstep : (Run.step cl r (Op.onExit st fn)).machine.transitionMap
          = r.machine.transitionMap := rfl
      rw [hstep]
      simp [addedTargets]
    | start st =>
      have hstep : (Run.step cl r (Op.start st)).machine.transitionMap
          = r.machine.transitionMap :=
        hop (fun x y h => Op.noConfusion h) r.machine r.env
      rw [hstep]
      simp [addedTargets]
    | transition t =>
      have hstep : (Run.step cl r (Op.transition t)).machine.transitionMap
          = r.machine.transitionMap :=
        hop (fun x y h => Op.noConfusion h) r.machine r.env
      rw [hstep]
      simp [addedTargets]

theorem call_table_of_registration {F W : Type} (cl : Closures F W) (op : Op F)
    (hreg : Op.isRegistration op = true) (hna : ∀ x y, op ≠ Op.addTransition x y)
    (f : FSM F) (w : W) : (op.call cl f w).machine.transitionMap = f.transitionMap := by
  cases op with
  | addTransition a b => exact absurd rfl (hna a b)
  | onEnter st fn => rfl
  | onExit st fn => rfl
  | start st => simp [Op.isRegistration] at hreg
  | transition t => simp [Op.isRegistration] at hreg

theorem call_table_of_leaves {F W : Type} (cl : Closures F W)
    (hcl : ∀ fn m w, (cl fn m w).machine.transitionMap = m.transitionMap) (op : Op F)
    (hna : ∀ x y, op ≠ Op.addTransition x y)
    (f : FSM F) (w : W) : (op.call cl f w).machine.transitionMap = f.transitionMap := by
  cases op with
  | addTransition a b => exact absurd rfl (hna a b)
  | onEnter st fn => rfl
  | onExit st fn => rfl
  | start st =>
    exact Start_keeps cl (fun m => m.transitionMap = f.transitionMap)
      (fun fn m w' hp => (hcl fn m w').trans hp) (fun _ _ hp => hp) f st w rfl
  | transition t =>
    exact Transition_keeps cl (fun m => m.transitionMap = f.transitionMap)
      (fun fn m w' hp => (hcl fn m w').trans hp) (fun _ _ hp => hp) f t w rfl

theorem runOps_table {F W : Type} (cl : Closures F W) (a : String) (ops : List (Op F)) (w0 : W)
    (hframe : ∀ op ∈ ops, (∀ x y, op ≠ Op.addTransition x y) →
      ∀ (f : FSM F) (w : W), (op.call cl f w).machine.transitionMap = f.transitionMap) :
    (runOps cl (NewFSM : FSM F) w0 ops).machine.transitionMap a =
      if addedTargets a ops = [] then none else some (dropLaterRepeats (addedTargets a ops)) := by
  unfold runOps
  rw [foldl_step_table cl a ops hframe]
  simp [NewFSM, GoMap.empty, foldl_insertNew_nil]

/-- C18 (insertion order): `AddTransition a b` with `b` not yet a target of `a`
yields the old target list of `a` with `b` appended at the end, so the existing
targets keep their order and positions; and after any sequence of registration
calls from `NewFSM`, and more generally after any sequence of calls whose
callbacks leave the table alone, the target list of `a` is the list of the
targets of the `AddTransition` calls with source `a`, in call order, with later
repeats dropped. -/
theorem insertion_order {F W : Type} (cl : Closures F W) :
    (∀ (f : FSM F) (a b : String), ¬ HasTransition f a b →
      (AddTransition f a b).transitionMap a = some ((f.transitionMap a).getD [] ++ [b])) ∧
    (∀ (ops : List (Op F)) (w0 : W) (a : String), (∀ op ∈ ops, Op.isRegistration op = true) →
      ((runOps cl (NewFSM : FSM F) w0 ops).machine.transitionMap a).getD []
        = dropLaterRepeats (addedTargets a ops)) ∧
    ((∀ fn m w, (cl fn m w).machine.transitionMap = m.transitionMap) →
      ∀ (ops : List (Op F)) (w0 : W) (a : String),
        ((runOps cl (NewFSM : FSM F) w0 ops).machine.transitionMap a).getD []
          = dropLaterRepeats (addedTargets a ops)) := by
  have hfin : ∀ (ops : List (Op F)) (w0 : W) (a : String),
      (∀ op ∈ ops, (∀ x y, op ≠ Op.addTransition x y) →
        ∀ (f : FSM F) (w : W), (op.call cl f w).machine.transitionMap = f.transitionMap) →
      ((runOps cl (NewFSM : FSM F) w0 ops).machine.transitionMap a).getD []
        = dropLaterRepeats (addedTargets a ops) := by
    intro ops w0 a hframe
    rw [runOps_table cl a ops w0 hframe]
    by_cases h : addedTargets a ops = []
    · simp [h, dropLaterRepeats]
    · simp [h]
  refine ⟨?_, ?_, ?_⟩
  · intro f a b h
    unfold HasTransition at h
    rw [AddTransition_table_source]
    simp [insertNew, h]
  · intro ops w0 a hreg
    exact hfin ops w0 a (fun op hop hna => call_table_of_registration cl op (hreg op hop) hna)
  · intro hcl ops w0 a
    exact hfin ops w0 a (fun op _ hna => call_table_of_leaves cl hcl op hna)

/-- An instance of insertion order: repeated and interleaved registrations. -/
theorem insertion_order_witness :
    (AddTransition abMachine "a" "c").transitionMap "a" = some ["b", "c"] ∧
    ((runOps demo (NewFSM : FSM Demo) 0
        [Op.addTransition "a" "c", Op.addTransition "b" "a", Op.addTransition "a" "b",
          Op.onEnter "a" Demo.countOk, Op.addTransition "a" "c",
          Op.addTransition "a" "d"]).machine.transitionMap "a").getD [] = ["c", "b", "d"] ∧
    ((runOps demoPlain (NewFSM : FSM Demo) 0
        [Op.addTransition "a" "c", Op.addTransition "b" "a", Op.addTransition "a" "b",
          Op.start "a", Op.addTransition "a" "c",
          Op.addTransition "a" "d"]).machine.transitionMap "a").getD [] = ["c", "b", "d"] :=
  ⟨(insertion_order demo).1 abMachine "a" "c" (by decide),
    (insertion_order demo).2.1 [Op.addTransition "a" "c", Op.addTransition "b" "a",
      Op.addTransition "a" "b", Op.onEnter "a" Demo.countOk, Op.addTransition "a" "c",
      Op.addTransition "a" "d"] 0 "a" (by simp [Op.isRegistration]),
    (insertion_order demoPlain).2.2 (fun fn m w => by rw [demoPlain_machine])
      [Op.addTransition "a" "c", Op.addTransition "b" "a",
      Op.addTransition "a" "b", Op.start "a", Op.addTransition "a" "c",
      Op.addTransition "a" "d"] 0 "a"⟩

/-! ## Which states have an entry -/

theorem mem_addedTargets {F : Type} (a b : String) (ops : List (Op F)) :
    b ∈ addedTargets a ops ↔ Op.addTransition a b ∈ ops := by
  induction ops with
  | nil => simp [addedTargets]
  | cons op rest ih =>
    cases op with
    | addTransition x y =>
      by_cases hxa : x = a
      · subst hxa
        simp only [addedTargets, if_true, List.mem_cons, ih, Op.addTransition.injEq, true_and]
      · have hxa2 : ¬ a = x := fun e => hxa e.symm
        simp [addedTargets, hxa, hxa2, ih]
    | onEnter st fn => simp [addedTargets, ih]
    | onExit st fn => simp [addedTargets, ih]
    | start st => simp [addedTargets, ih]
    | transition t => simp [addedTargets, ih]

theorem addedTargets_eq_nil_iff {F : Type} (a : String) (ops : List (Op F)) :
    addedTargets a ops = [] ↔ ¬ ∃ b, Op.addTransition a b ∈ ops := by
  rw [List.eq_nil_iff_forall_not_mem]
  simp only [mem_addedTargets, not_exists]

theorem mem_dropLaterRepeats (x : String) (xs : List String) :
    x ∈ dropLaterRepeats xs ↔ x ∈ xs := by
  induction xs with
  | nil => simp [dropLaterRepeats]
  | cons y rest ih =>
    by_cases hxy : x = y
    · simp [dropLaterRepeats, hxy]
    · simp [dropLaterRepeats, hxy, List.mem_filter, ih]

/-- In a machine reached from `NewFSM` by a run in which only `AddTransition` calls
of the client change the table, the table holds exactly the pairs that these
calls registered. -/
theorem HasTransition_runOps_iff {F W : Type} (cl : Closures F W) (ops : List (Op F)) (w0 : W)
    (hframe : ∀ op ∈ ops, (∀ x y, op ≠ Op.addTransition x y) →
      ∀ (f : FSM F) (w : W), (op.call cl f w).machine.transitionMap = f.transitionMap)
    (a b : String) :
    HasTransition (runOps cl (NewFSM : FSM F) w0 ops).machine a b ↔
      Op.addTransition a b ∈ ops := by
  unfold HasTransition
  rw [runOps_table cl a ops w0 hframe, ← mem_addedTargets]
  by_cases h : addedTargets a ops = []
  · simp [h]
  · simp [h, mem_dropLaterRepeats]

theorem entry_runOps_iff {F W : Type} (cl : Closures F W) (ops : List (Op F)) (w0 : W)
    (hframe : ∀ op ∈ ops, (∀ x y, op ≠ Op.addTransition x y) →
      ∀ (f : FSM F) (w : W), (op.call cl f w).machine.transitionMap = f.transitionMap)
    (s : String) :
    (runOps cl (NewFSM : FSM F) w0 ops).machine.transitionMap s = none ↔
      ¬ ∃ b, Op.addTransition s b ∈ ops := by
  rw [runOps_table cl s ops w0 hframe, ← addedTargets_eq_nil_iff]
  by_cases h : addedTargets s ops = []
  · simp [h]
  · simp [h]

theorem unstarted_step {F W : Type} (cl : Closures F W) (op : Op F) (f : FSM F) (w : W)
    (hq : (∀ s, op ≠ Op.start s) ∧ (∀ b, op ≠ Op.addTransition "" b))
    (h : f.currentState = "" ∧ f.transitionMap "" = none) :
    (op.call cl f w).machine.currentState = "" ∧
      (op.call cl f w).machine.transitionMap "" = none := by
  cases op with
  | addTransition a b =>
    have ha : "" ≠ a := fun e => hq.2 b (by rw [e])
    exact ⟨(AddTransition_currentState f a b).trans h.1,
      (AddTransition_table_other f a b "" ha).trans h.2⟩
  | onEnter st fn => exact h
  | onExit st fn => exact h
  | start st => exact absurd rfl (hq.1 st)
  | transition t =>
    have hm : Transition cl f t w = ⟨f, w, [],
        some (errors.New ("Could not transition to " ++ t ++ ". State does not exist"))⟩ :=
      Transition_of_no_entry cl f t w (by rw [h.1]; exact h.2)
    show (Transition cl f t w).machine.currentState = "" ∧
      (Transition cl f t w).machine.transitionMap "" = none
    rw [hm]
    exact h

/-- C20 (the unstarted sentinel): the current state of a new machine is the empty
string and it is treated like any other state.  As long as `Start` has never
been called and no `AddTransition` call used `""` as source, the current state
is still `""` and `Transition t` fails with the "State does not exist" error,
calling no callback and changing nothing.  After registrations that include
`AddTransition "" t`, and without any `Start`, `Transition t` returns no error
when the exit callback of `""` and the enter callback of `t` do not fail: it
calls these two, in that order, the outside state is the one they leave in that
order, and the current state is set to `t`; a target `u` that was not registered
from `""` is refused as an invalid transition from `""`. -/
theorem unstarted_sentinel {F W : Type} (cl : Closures F W) :
    (NewFSM : FSM F).currentState = "" ∧
    (∀ (ops : List (Op F)) (w0 : W), (∀ s, Op.start s ∉ ops) →
      (∀ b, Op.addTransition "" b ∉ ops) →
      (runOps cl (NewFSM : FSM F) w0 ops).machine.currentState = "" ∧
      ∀ (t : String) (w : W),
        (Transition cl (runOps cl (NewFSM : FSM F) w0 ops).machine t w).err
          = some (errors.New ("Could not transition to " ++ t ++ ". State does not exist")) ∧
        (Transition cl (runOps cl (NewFSM : FSM F) w0 ops).machine t w).calls = [] ∧
        (Transition cl (runOps cl (NewFSM : FSM F) w0 ops).machine t w).env = w ∧
        (Transition cl (runOps cl (NewFSM : FSM F) w0 ops).machine t w).machine
          = (runOps cl (NewFSM : FSM F) w0 ops).machine) ∧
    (∀ (regs : List (Op F)) (w0 : W) (t : String) (w : W),
      (∀ op ∈ regs, Op.isRegistration op = true) → Op.addTransition "" t ∈ regs →
      (∀ exitFun, (runOps cl (NewFSM : FSM F) w0 regs).machine.exitFuncs "" = some exitFun →
        (cl exitFun (runOps cl (NewFSM : FSM F) w0 regs).machine w).err = none) →
      (∀ enterFun, (afterExit cl (runOps cl (NewFSM : FSM F) w0 regs).machine w).machine.enterFuncs
          t = some enterFun →
        (cl enterFun (afterExit cl (runOps cl (NewFSM : FSM F) w0 regs).machine w).machine
          (afterExit cl (runOps cl (NewFSM : FSM F) w0 regs).machine w).env).err = none) →
      (runOps cl (NewFSM : FSM F) w0 regs).machine.currentState = "" ∧
      (Transition cl (runOps cl (NewFSM : FSM F) w0 regs).machine t w).err = none ∧
      (Transition cl (runOps cl (NewFSM : FSM F) w0 regs).machine t w).machine.currentState = t ∧
      (Transition cl (runOps cl (NewFSM : FSM F) w0 regs).machine t w).calls
        = (afterEnter cl (runOps cl (NewFSM : FSM F) w0 regs).machine t w).calls ∧
      (Transition cl (runOps cl (NewFSM : FSM F) w0 regs).machine t w).env
        = (afterEnter cl (runOps cl (NewFSM : FSM F) w0 regs).machine t w).env ∧
      (∀ exitFun enterFun,
        (runOps cl (NewFSM : FSM F) w0 regs).machine.exitFuncs "" = some exitFun →
        (cl exitFun (runOps cl (NewFSM : FSM F) w0 regs).machine w).machine.enterFuncs t
          = some enterFun →
        (Transition cl (runOps cl (NewFSM : FSM F) w0 regs).machine t w).calls
          = Call.exit "" :: (cl exitFun (runOps cl (NewFSM : FSM F) w0 regs).machine w).calls
            ++ Call.enter t :: (cl enterFun
              (cl exitFun (runOps cl (NewFSM : FSM F) w0 regs).machine w).machine
              (cl exitFun (runOps cl (NewFSM : FSM F) w0 regs).machine w).env).calls ∧
        (Transition cl (runOps cl (NewFSM : FSM F) w0 regs).machine t w).env
          = (cl enterFun
              (cl exitFun (runOps cl (NewFSM : FSM F) w0 regs).machine w).machine
              (cl exitFun (runOps cl (NewFSM : FSM F) w0 regs).machine w).env).env)) ∧
    (∀ (regs : List (Op F)) (w0 : W) (u : String) (w : W),
      (∀ op ∈ regs, Op.isRegistration op = true) → (∃ b, Op.addTransition "" b ∈ regs) →
      Op.addTransition "" u ∉ regs →
      (Transition cl (runOps cl (NewFSM : FSM F) w0 regs).machine u w).err
        = some (errors.New ("Invalid transition from " ++ "" ++ " to " ++ u)) ∧
      (Transition cl (runOps cl (NewFSM : FSM F) w0 regs).machine u w).calls = [] ∧
      (Transition cl (runOps cl (NewFSM : FSM F) w0 regs).machine u w).env = w ∧
      (Transition cl (runOps cl (NewFSM : FSM F) w0 regs).machine u w).machine
        = (runOps cl (NewFSM : FSM F) w0 regs).machine) := by
  refine ⟨rfl, ?_, ?_, ?_⟩
  · intro ops w0 hns hna
    have hinv := foldl_step_invariant_of cl
      (fun op : Op F => (∀ s, op ≠ Op.start s) ∧ (∀ b, op ≠ Op.addTransition "" b))
      (fun f : FSM F => f.currentState = "" ∧ f.transitionMap "" = none)
      (unstarted_step cl) ops
      (fun op hop => ⟨fun s e => hns s (e ▸ hop), fun b e => hna b (e ▸ hop)⟩)
      ⟨(NewFSM : FSM F), w0, [], []⟩ ⟨rfl, rfl⟩
    have hcur : (runOps cl (NewFSM : FSM F) w0 ops).machine.currentState = "" := hinv.1
    have htab : (runOps cl (NewFSM : FSM F) w0 ops).machine.transitionMap
        (runOps cl (NewFSM : FSM F) w0 ops).machine.currentState = none := by
      rw [hcur]; exact hinv.2
    refine ⟨hcur, ?_⟩
    intro t w
    rw [Transition_of_no_entry cl _ t w htab]
    exact ⟨rfl, rfl, rfl, rfl⟩
  · intro regs w0 t w hregs hmem hexit henter
    have hframe : ∀ op ∈ regs, (∀ x y, op ≠ Op.addTransition x y) →
        ∀ (f : FSM F) (w : W), (op.call cl f w).machine.transitionMap = f.transitionMap :=
      fun op hop hna => call_table_of_registration cl op (hregs op hop) hna
    have hcur : (runOps cl (NewFSM : FSM F) w0 regs).machine.currentState = "" :=
      foldl_step_currentState_of_registration cl regs _ hregs
    have hpair : HasTransition (runOps cl (NewFSM : FSM F) w0 regs).machine
        (runOps cl (NewFSM : FSM F) w0 regs).machine.currentState t := by
      rw [hcur]
      exact (HasTransition_runOps_iff cl regs w0 hframe "" t).2 hmem
    have hx : (afterExit cl (runOps cl (NewFSM : FSM F) w0 regs).machine w).err = none :=
      (afterExit_err_none_iff cl _ w).2 (by rw [hcur]; exact hexit)
    have hn : (afterEnter cl (runOps cl (NewFSM : FSM F) w0 regs).machine t w).err = none :=
      (afterEnter_err_none_iff cl _ t w).2 henter
    have ho := Transition_of_success cl _ t w hpair hx hn
    refine ⟨hcur, by rw [ho], by rw [ho], by rw [ho], by rw [ho], ?_⟩
    intro exitFun enterFun hX hE
    have hx2 := afterExit_of_some cl (runOps cl (NewFSM : FSM F) w0 regs).machine w exitFun
      (by rw [hcur]; exact hX)
    have hn2 := afterEnter_of_some cl (runOps cl (NewFSM : FSM F) w0 regs).machine t w enterFun
      (by rw [hx2]; exact hE)
    rw [ho, hn2, hx2, hcur]
    exact ⟨rfl, rfl⟩
  · intro regs w0 u w hregs hsome hnot
    have hframe : ∀ op ∈ regs, (∀ x y, op ≠ Op.addTransition x y) →
        ∀ (f : FSM F) (w : W), (op.call cl f w).machine.transitionMap = f.transitionMap :=
      fun op hop hna => call_table_of_registration cl op (hregs op hop) hna
    have hcur : (runOps cl (NewFSM : FSM F) w0 regs).machine.currentState = "" :=
      foldl_step_currentState_of_registration cl regs _ hregs
    have hentry : (runOps cl (NewFSM : FSM F) w0 regs).machine.transitionMap "" ≠ none :=
      fun h => (entry_runOps_iff cl regs w0 hframe "").1 h hsome
    have hno : ¬ HasTransition (runOps cl (NewFSM : FSM F) w0 regs).machine "" u :=
      fun h => hnot ((HasTransition_runOps_iff cl regs w0 hframe "" u).1 h)
    cases hT : (runOps cl (NewFSM : FSM F) w0 regs).machine.transitionMap "" with
    | none => exact absurd hT hentry
    | some ts =>
      have hu : u ∉ ts := by
        unfold HasTransition at hno
        rw [hT] at hno
        simpa using hno
      have hT2 : (runOps cl (NewFSM : FSM F) w0 regs).machine.transitionMap
          (runOps cl (NewFSM : FSM F) w0 regs).machine.currentState = some ts := by
        rw [hcur]; exact hT
      rw [Transition_of_not_target cl _ u w ts hT2 hu, hcur]
      exact ⟨rfl, rfl, rfl, rfl⟩

/-- An instance of C20: without `Start`, a transition from the sentinel `""` fails
when `""` is no source, and succeeds after `AddTransition "" t`, running the exit
callback of `""` and then the enter callback of `t`, which leaves the counter at
two. -/
theorem unstarted_sentinel_witness :
    (Transition demo (runOps demo (NewFSM : FSM Demo) 0
      [Op.addTransition "a" "b", Op.transition "b"]).machine "b" 0).err
      = some (errors.New "Could not transition to b. State does not exist") ∧
    (Transition demo (runOps demo (NewFSM : FSM Demo) 0
      [Op.onExit "" Demo.countOk, Op.addTransition "" "t", Op.onEnter "t" Demo.countOk]).machine
      "t" 0).err = none ∧
    (Transition demo (runOps demo (NewFSM : FSM Demo) 0
      [Op.onExit "" Demo.countOk, Op.addTransition "" "t", Op.onEnter "t" Demo.countOk]).machine
      "t" 0).calls = [Call.exit "", Call.enter "t"] ∧
    (Transition demo (runOps demo (NewFSM : FSM Demo) 0
      [Op.onExit "" Demo.countOk, Op.addTransition "" "t", Op.onEnter "t" Demo.countOk]).machine
      "t" 0).env = 2 ∧
    (Transition demo (runOps demo (NewFSM : FSM Demo) 0
      [Op.onExit "" Demo.countOk, Op.addTransition "" "t", Op.onEnter "t" Demo.countOk]).machine
      "t" 0).machine.currentState = "t" ∧
    (Transition demo (runOps demo (NewFSM : FSM Demo) 0
      [Op.onExit "" Demo.countOk, Op.addTransition "" "t", Op.onEnter "t" Demo.countOk]).machine
      "u" 0).err = some (errors.New "Invalid transition from  to u") :=
  have h1 := ((unstarted_sentinel demo).2.1 [Op.addTransition "a" "b", Op.transition "b"]
    (0 : Nat) (by simp) (by simp)).2 "b" 0
  have h2 := (unstarted_sentinel demo).2.2.1
    [Op.onExit "" Demo.countOk, Op.addTransition "" "t", Op.onEnter "t" Demo.countOk]
    (0 : Nat) "t" 0
    (by simp [Op.isRegistration]) (by simp)
    (fun exitFun hx => by
      have h : exitFun = Demo.countOk := (Option.some.inj hx).symm
      subst h
      rfl)
    (fun enterFun he => by
      have h : enterFun = Demo.countOk := (Option.some.inj he).symm
      subst h
      rfl)
  have h3 := (unstarted_sentinel demo).2.2.2
    [Op.onExit "" Demo.countOk, Op.addTransition "" "t", Op.onEnter "t" Demo.countOk]
    (0 : Nat) "u" 0 (by simp [Op.isRegistration]) ⟨"t", by simp⟩ (by simp)
  ⟨h1.1, h2.2.1, (h2.2.2.2.2.2 Demo.countOk Demo.countOk rfl rfl).1,
    (h2.2.2.2.2.2 Demo.countOk Demo.countOk rfl rfl).2, h2.2.2.1, h3.1⟩

/-! ## Following a path -/

theorem noCallbacks_step {F W : Type} (cl : Closures F W) (op : Op F) (f : FSM F) (w : W)
    (hq : ∃ a b, op = Op.addTransition a b)
    (h : f.enterFuncs = GoMap.empty ∧ f.exitFuncs = GoMap.empty) :
    (op.call cl f w).machine.enterFuncs = GoMap.empty ∧
      (op.call cl f w).machine.exitFuncs = GoMap.empty := by
  obtain ⟨a, b, rfl⟩ := hq
  exact ⟨(AddTransition_enterFuncs f a b).trans h.1, (AddTransition_exitFuncs f a b).trans h.2⟩

theorem Transition_noCallbacks {F W : Type} (cl : Closures F W) (f : FSM F) (t : String) (w : W)
    (he : f.enterFuncs = GoMap.empty) (hx : f.exitFuncs = GoMap.empty)
    (hpair : HasTransition f f.currentState t) :
    Transition cl f t w = ⟨{ f with currentState := t }, w, [], none⟩ := by
  have hX : f.exitFuncs f.currentState = none := by rw [hx]; rfl
  have hx2 := afterExit_of_none cl f w hX
  have hE : (afterExit cl f w).machine.enterFuncs t = none := by rw [hx2]; show f.enterFuncs t = none; rw [he]; rfl
  have hn2 := afterEnter_of_none cl f t w hE
  rw [Transition_of_success cl f t w hpair (by rw [hx2]) (by rw [hn2]), hn2, hx2]

theorem foldl_step_path {F W : Type} (cl : Closures F W) (m : FSM F) (w : W)
    (he : m.enterFuncs = GoMap.empty) (hx : m.exitFuncs = GoMap.empty) (path : List String) :
    ∀ (cur : String) (calls : List Call) (results : List (Option Error)),
      List.Chain (fun x y => HasTransition m x y) cur path →
      (path.map Op.transition).foldl (Run.step cl)
          ⟨{ m with currentState := cur }, w, calls, results⟩
        = ⟨{ m with currentState := path.getLastD cur }, w, calls,
            results ++ List.replicate path.length none⟩ := by
  induction path with
  | nil => intro cur calls results _; simp
  | cons t rest ih =>
    intro cur calls results hc
    rw [List.chain_cons] at hc
    have htr := Transition_noCallbacks cl { m with currentState := cur } t w he hx hc.1
    have hstep : Run.step cl ⟨{ m with currentState := cur }, w, calls, results⟩
          (Op.transition t)
        = ⟨{ m with currentState := t }, w, calls, results ++ [none]⟩ := by
      simp [Run.step, Op.call, htr]
    rw [List.map_cons, List.foldl_cons, hstep, ih t calls (results ++ [none]) hc.2,
      List.getLastD_cons]
    simp [List.replicate_succ]

/-- C13 (path following with branching): on a machine built from `NewFSM` by
`AddTransition` calls only, `Start s0` returns no error, and for every sequence
of targets in which each step `(previous, next)` was registered (starting from
`s0`), every `Transition` returns no error and the final current state is the
last target; a following `Transition u` with `(last, u)` never registered
fails and leaves the current state where it was. -/
theorem path_following {F W : Type} (cl : Closures F W) (adds : List (String × String))
    (s0 : String) (path : List String) (w0 w : W) (m0 : FSM F) (r : Run F W)
    (hm0 : m0 = (runOps cl (NewFSM : FSM F) w0 (addTransitionOps adds)).machine)
    (hr : r = runOps cl (Start cl m0 s0 w).machine (Start cl m0 s0 w).env
      (path.map Op.transition))
    (hpath : List.Chain (fun x y => (x, y) ∈ adds) s0 path) :
    (Start cl m0 s0 w).err = none ∧
      r.results = List.replicate path.length none ∧
      (∀ e ∈ r.results, e = none) ∧
      r.machine.currentState = path.getLastD s0 ∧
      (∀ u, (path.getLastD s0, u) ∉ adds →
        (Transition cl r.machine u r.env).err ≠ none ∧
        (Transition cl r.machine u r.env).machine.currentState = path.getLastD s0) := by
  have hadds : ∀ op ∈ (addTransitionOps adds : List (Op F)), ∃ a b, op = Op.addTransition a b := by
    intro op hop
    unfold addTransitionOps at hop
    obtain ⟨p, _, rfl⟩ := List.mem_map.1 hop
    exact ⟨p.1, p.2, rfl⟩
  have hnc : m0.enterFuncs = GoMap.empty ∧ m0.exitFuncs = GoMap.empty := by
    rw [hm0]
    exact foldl_step_invariant_of cl (fun op : Op F => ∃ a b, op = Op.addTransition a b)
      (fun f : FSM F => f.enterFuncs = GoMap.empty ∧ f.exitFuncs = GoMap.empty)
      (noCallbacks_step cl) (addTransitionOps adds) hadds
      ⟨(NewFSM : FSM F), w0, [], []⟩ ⟨rfl, rfl⟩
  have hframe : ∀ op ∈ (addTransitionOps adds : List (Op F)),
      (∀ x y, op ≠ Op.addTransition x y) →
      ∀ (f : FSM F) (w : W), (op.call cl f w).machine.transitionMap = f.transitionMap := by
    intro op hop hna
    obtain ⟨a, b, h⟩ := hadds op hop
    exact absurd h (hna a b)
  have hpair : ∀ x y, HasTransition m0 x y ↔ (x, y) ∈ adds := by
    intro x y
    rw [hm0, HasTransition_runOps_iff cl _ w0 hframe]
    unfold addTransitionOps
    constructor
    · intro h
      obtain ⟨p, hp, he⟩ := List.mem_map.1 h
      have h1 : p.1 = x := (Op.addTransition.inj he).1
      have h2 : p.2 = y := (Op.addTransition.inj he).2
      rw [← h1, ← h2]
      exact hp
    · intro h
      exact List.mem_map.2 ⟨(x, y), h, rfl⟩
  have hstart : Start cl m0 s0 w = ⟨{ m0 with currentState := s0 }, w, [], none⟩ :=
    Start_of_none cl m0 s0 w (by rw [hnc.1]; rfl)
  have hchain : List.Chain (fun x y => HasTransition m0 x y) s0 path :=
    List.Chain.imp (fun x y h => (hpair x y).2 h) hpath
  have hrun := foldl_step_path cl m0 w hnc.1 hnc.2 path s0 [] [] hchain
  have hr2 : r = ⟨{ m0 with currentState := path.getLastD s0 }, w, [],
      [] ++ List.replicate path.length none⟩ := by
    rw [hr, hstart]
    exact hrun
  refine ⟨by rw [hstart], by rw [hr2]; simp, ?_, by rw [hr2], ?_⟩
  · intro e he
    rw [hr2] at he
    simp only [List.nil_append] at he
    exact List.eq_of_mem_replicate he
  · intro u hu
    have hno : ¬ HasTransition r.machine r.machine.currentState u := by
      rw [hr2]
      intro h
      exact hu ((hpair _ u).1 h)
    obtain ⟨hm, _, _, he⟩ := Transition_of_invalid cl r.machine u r.env hno
    refine ⟨?_, ?_⟩
    · rcases he with h | h <;> rw [h] <;> simp
    · rw [hm, hr2]

/-- An instance of path following: the run of `TestTransition`. -/
theorem path_following_witness :
    (Start demo (runOps demo (NewFSM : FSM Demo) 0 (addTransitionOps testTransitions)).machine
      "sharing" 0).err = none ∧
    (runOps demo (Start demo (runOps demo (NewFSM : FSM Demo) 0
        (addTransitionOps testTransitions)).machine "sharing" 0).machine 0
      [Op.transition "liking", Op.transition "discovering", Op.transition "sharing",
        Op.transition "uploading"]).results = [none, none, none, none] ∧
    (runOps demo (Start demo (runOps demo (NewFSM : FSM Demo) 0
        (addTransitionOps testTransitions)).machine "sharing" 0).machine 0
      [Op.transition "liking", Op.transition "discovering", Op.transition "sharing",
        Op.transition "uploading"]).machine.currentState = "uploading" ∧
    (Transition demo (runOps demo (Start demo (runOps demo (NewFSM : FSM Demo) 0
        (addTransitionOps testTransitions)).machine "sharing" 0).machine 0
      [Op.transition "liking", Op.transition "discovering", Op.transition "sharing",
        Op.transition "uploading"]).machine "invalid state" 0).err ≠ none :=
  have h := path_following demo testTransitions "sharing"
    ["liking", "discovering", "sharing", "uploading"] (0 : Nat) 0
    (runOps demo (NewFSM : FSM Demo) 0 (addTransitionOps testTransitions)).machine
    (runOps demo (Start demo (runOps demo (NewFSM : FSM Demo) 0
        (addTransitionOps testTransitions)).machine "sharing" 0).machine 0
      [Op.transition "liking", Op.transition "discovering", Op.transition "sharing",
        Op.transition "uploading"])
    rfl rfl
    (List.Chain.cons (by decide) (List.Chain.cons (by decide) (List.Chain.cons (by decide)
      (List.Chain.cons (by decide) List.Chain.nil))))
  ⟨h.1, h.2.1, h.2.2.2.1, (h.2.2.2.2 "invalid state" (by decide)).1⟩

end fsm
